import Mathlib

/-!
Verification of the dependency vulnerability aggregation pipeline of the
bolt.diy security-scanning subsystem: manifest parsing, version cleaning,
OSV batch querying, severity classification, and scan-result assembly.

The definitions below are a shallow embedding of the TypeScript sources
`app/types/osv.ts`, `app/lib/security/manifest-parsers.ts`,
`app/lib/security/osv-client.ts` and the OSV scan route action.
JavaScript strings are modelled as Lean `String`/`List Char`; JavaScript
numbers that carry CVSS scores and JSON numbers are modelled as `ℚ`;
fallible operations return `Option`/`Except`.  Regex-based string
transformations are modelled in terms of their leftmost-match semantics on
ASCII text (JS `\s` is modelled by the ASCII whitespace characters).
-/

namespace Osv

/-! ## JavaScript string primitives -/

/-- Whitespace as matched by JS `\s` and `String.prototype.trim`
(restricted to the ASCII whitespace characters). -/
def jsWS (c : Char) : Bool :=
  [' ', '\t', '\n', '\r', Char.ofNat 11, Char.ofNat 12].contains c

/-- Drop trailing whitespace from a character list. -/
def dropTrailWS (l : List Char) : List Char :=
  (l.reverse.dropWhile jsWS).reverse

/-- Model of `String.prototype.trim` on character lists. -/
def jsTrimL (l : List Char) : List Char :=
  dropTrailWS (l.dropWhile jsWS)

/-- Model of `String.prototype.trim`. -/
def jsTrimStr (s : String) : String :=
  ⟨jsTrimL s.data⟩

/-- Returns the characters strictly before the first occurrence of `pat`
in `l`, or `none` when `pat` does not occur. -/
def beforeAt? (pat : List Char) : List Char → Option (List Char)
  | [] => if pat.isEmpty then some [] else none
  | c :: cs =>
    if pat.isPrefixOf (c :: cs) then some []
    else (beforeAt? pat cs).map (c :: ·)

/-- Whether the adjacent pair `a, b` occurs somewhere in the list. -/
def hasPair (a b : Char) : List Char → Bool
  | c :: d :: t => (c == a && d == b) || hasPair a b (d :: t)
  | _ => false

/-- Model of `String.prototype.includes` (substring occurrence). -/
def hasSubL (pat : List Char) : List Char → Bool
  | [] => pat.isEmpty
  | c :: cs => pat.isPrefixOf (c :: cs) || hasSubL pat cs

/-- Model of `haystack.includes(needle)`. -/
def jsIncludes (hay pat : String) : Bool :=
  hasSubL pat.data hay.data

/-- Model of `String.prototype.endsWith` / an end-anchored regex test. -/
def jsEndsWith (s pat : String) : Bool :=
  pat.data.reverse.isPrefixOf s.data.reverse

/-- Model of `String.prototype.startsWith`. -/
def jsStartsWith (s pat : String) : Bool :=
  pat.data.isPrefixOf s.data

/-- Model of `String.prototype.toUpperCase` (ASCII). -/
def jsToUpper (s : String) : String :=
  ⟨s.data.map Char.toUpper⟩

/-- Model of `String.prototype.toLowerCase` (ASCII). -/
def jsToLower (s : String) : String :=
  ⟨s.data.map Char.toLower⟩

/-! ## Version cleaning (`cleanVersion` in `manifest-parsers.ts`)

The source applies, in order: `trim()`, `replace(/^[\^~>=<]+/, '')`,
`replace(/\s*\|\|.*$/, '')`, `replace(/\s*-.*$/, '')`, `split(/\s+/)[0]`,
and then, when the result contains a `*` or an `x`,
`replace(/[.*x].*$/, '0').replace(/\.$/, '.0')`.

Leftmost-match semantics of `replace(/\s*P.*$/, '')` is: in JS, `.`
does not match a line terminator and `$` (without the `m` flag) matches
only at end of input, while `\s` does match line terminators.  The
replacement therefore latches onto the first occurrence of `P` whose
remainder — the text after the occurrence, up to end of input — is free
of line terminators, and removes everything from the start of the
whitespace run immediately before that occurrence; when no such
occurrence exists the string is unchanged.  `split(/\s+/)[0]` is the
longest whitespace-free prefix (for a string starting with whitespace
the first split field is empty, as in JS). -/

def constraintChar (c : Char) : Bool :=
  c == '^' || c == '~' || c == '>' || c == '=' || c == '<'

def orPat : List Char := ['|', '|']

def dashPat : List Char := ['-']

/-- Whether the list is free of the ASCII line terminators `\n` and
`\r` — the characters JS `.` does not match and end-anchoring stops
at. -/
def noLineTerm (l : List Char) : Bool :=
  !(l.contains '\n' || l.contains '\r')

/-- Returns the characters strictly before the first occurrence of
`pat` whose remainder (the text after the occurrence) is free of line
terminators, or `none` when no such occurrence exists.  This is the
occurrence a `$`-anchored replacement `/\s*PAT.*$/` latches onto: `.*`
cannot cross a line terminator and `$` matches only at end of input, so
an occurrence followed somewhere by a newline never matches. -/
def beforeAtDollar? (pat : List Char) : List Char → Option (List Char)
  | [] => if pat.isEmpty then some [] else none
  | c :: cs =>
    if pat.isPrefixOf (c :: cs) && noLineTerm ((c :: cs).drop pat.length) then some []
    else (beforeAtDollar? pat cs).map (c :: ·)

/-- Cut at the first occurrence of `pat` whose remainder is free of
line terminators, dropping the whitespace run immediately before the
occurrence (model of `replace(/\s*PAT.*$/, '')`). -/
def cutAt (pat : List Char) (l : List Char) : List Char :=
  match beforeAtDollar? pat l with
  | some b => dropTrailWS b
  | none => l

/-- Wildcard handling from the source: when the cleaned token contains
`*` or `x`, `replace(/[.*x].*$/, '0')` cuts at the first `.`, `*` or `x`
and appends `0`; `replace(/\.$/, '.0')` then turns a trailing dot into
`.0`. -/
def wildcardStep (t : List Char) : List Char :=
  if t.contains '*' || t.contains 'x' then
    let t5 := (t.takeWhile fun c => !(c == '.' || c == '*' || c == 'x')) ++ ['0']
    if t5.getLast? = some '.' then t5 ++ ['0'] else t5
  else t

/-- Character-list core of `cleanVersion`. -/
def cleanVersionL (l : List Char) : List Char :=
  if l = [] then []
  else
    let t0 := jsTrimL l
    let t1 := t0.dropWhile constraintChar
    let t2 := cutAt orPat t1
    let t3 := cutAt dashPat t2
    let t4 := t3.takeWhile fun c => !(jsWS c)
    wildcardStep t4

/-- Model of `cleanVersion` from `manifest-parsers.ts`. -/
def cleanVersion (s : String) : String :=
  ⟨cleanVersionL s.data⟩

/-! Spec-side variants of `cleanVersion`, used only to state refinement
claims about the documented algorithm. -/

def spacedDashPat : List Char := [' ', '-', ' ']

/-- Modelled from the spec's wording of the cleaning algorithm: trim
whitespace, strip a leading run of the constraint characters, drop
everything from an OR-combinator `||` onward, drop everything from a
range dash written with surrounding spaces (` - `) onward, then take the
first whitespace-delimited token; wildcard post-processing as in the
source. -/
def cleanVersionClaimC8 (s : String) : String :=
  let l := s.data
  if l = [] then ⟨[]⟩
  else
    let t1 := (jsTrimL l).dropWhile constraintChar
    let t2 := match beforeAt? orPat t1 with
      | some b => b
      | none => t1
    let t3 := match beforeAt? spacedDashPat t2 with
      | some b => b
      | none => t2
    ⟨wildcardStep (t3.takeWhile fun c => !(jsWS c))⟩

/-- The amended form of the documented algorithm.  The third step drops
everything from the first `||` — together with the whitespace run
immediately before it — onward, and only when the text after the `||`
contains no line terminator (the `$`-anchored replacement fires only
then); the fourth step drops everything from the first dash onward
under the same no-line-terminator condition, not only from a spaced
` - ` range dash (any whitespace immediately before the dash is
consumed too, which the final tokenization makes unobservable). -/
def cleanVersionClaimC8Amended (s : String) : String :=
  let l := s.data
  if l = [] then ⟨[]⟩
  else
    let t1 := (jsTrimL l).dropWhile constraintChar
    let t2 := match beforeAtDollar? orPat t1 with
      | some b => dropTrailWS b
      | none => t1
    let t3 := match beforeAtDollar? dashPat t2 with
      | some b => b
      | none => t2
    ⟨wildcardStep (t3.takeWhile fun c => !(jsWS c))⟩

/-! ## JSON values and `JSON.parse`

`extractNpmPackages` calls the JS builtin `JSON.parse`; the parsed value
is modelled by the inductive `Json` below and the parse itself by a
fuel-based recursive-descent parser (`none` models a thrown
`SyntaxError`).  Numbers are modelled as `ℚ`; duplicate object keys keep
the first position and the last value, as in JS. -/

inductive Json where
  | null : Json
  | bool (b : Bool) : Json
  | num (q : ℚ) : Json
  | str (s : String) : Json
  | arr (elems : List Json) : Json
  | obj (fields : List (String × Json)) : Json
deriving Repr, Inhabited

/-- JS `Map.prototype.set`: replace in place when the key is present,
otherwise append.  Also used for duplicate keys during object parsing. -/
def mapSet {α : Type} (m : List (String × α)) (k : String) (v : α) : List (String × α) :=
  if m.any (fun p => p.1 == k) then
    m.map (fun p => if p.1 == k then (k, v) else p)
  else m ++ [(k, v)]

/-- JS `Map.prototype.get` / object property lookup. -/
def mapGet {α : Type} (m : List (String × α)) (k : String) : Option α :=
  List.lookup k m

def isDigitC (c : Char) : Bool := '0' ≤ c && c ≤ '9'

def digitVal (c : Char) : ℕ := c.toNat - '0'.toNat

def natOfDigits (l : List Char) : ℕ := l.foldl (fun a c => a * 10 + digitVal c) 0

/-- Model of JS `parseFloat`, restricted to plain decimal literals
(optional sign, digits, optional fraction); `none` models `NaN`.
Exponents and `Infinity` are not modelled — the CVSS score strings this
is applied to are plain decimals. -/
def jsParseFloat (s : String) : Option ℚ :=
  let l0 := s.data.dropWhile jsWS
  let signed : ℚ × List Char :=
    match l0 with
    | '-' :: t => (-1, t)
    | '+' :: t => (1, t)
    | t => (1, t)
  let intPart := signed.2.takeWhile isDigitC
  let rest := signed.2.dropWhile isDigitC
  let fracPart :=
    match rest with
    | '.' :: t => t.takeWhile isDigitC
    | _ => []
  if intPart = [] && fracPart = [] then none
  else
    some (signed.1 * ((natOfDigits intPart : ℚ) +
      (natOfDigits fracPart : ℚ) / ((10 : ℚ) ^ fracPart.length)))

def hexVal? (c : Char) : Option ℕ :=
  if isDigitC c then some (digitVal c)
  else
    let lower := c.toLower
    if lower < 'a' || 'f' < lower then none
    else some (lower.toNat - 'a'.toNat + 10)

/-- Parse the body of a JSON string literal (the opening quote already
consumed); returns the decoded characters and the input after the
closing quote. -/
def parseJsonString : ℕ → List Char → Option (List Char × List Char)
  | 0, _ => none
  | _ + 1, [] => none
  | f + 1, c :: cs =>
    if c == '"' then some ([], cs)
    else if c == '\\' then
      match cs with
      | [] => none
      | e :: cs' =>
        let esc? : Option (Char × List Char) :=
          if e == '"' then some ('"', cs')
          else if e == '\\' then some ('\\', cs')
          else if e == '/' then some ('/', cs')
          else if e == 'b' then some (Char.ofNat 8, cs')
          else if e == 'f' then some (Char.ofNat 12, cs')
          else if e == 'n' then some ('\n', cs')
          else if e == 'r' then some ('\r', cs')
          else if e == 't' then some ('\t', cs')
          else if e == 'u' then
            match cs' with
            | h1 :: h2 :: h3 :: h4 :: cs'' =>
              match hexVal? h1, hexVal? h2, hexVal? h3, hexVal? h4 with
              | some a, some b, some c2, some d =>
                some (Char.ofNat (((a * 16 + b) * 16 + c2) * 16 + d), cs'')
              | _, _, _, _ => none
            | _ => none
          else none
        match esc? with
        | some (ch, rest) =>
          (parseJsonString f rest).map fun p => (ch :: p.1, p.2)
        | none => none
    else if c.toNat < 32 then none
    else (parseJsonString f cs).map fun p => (c :: p.1, p.2)

/-- Parse a JSON number literal at the head of the input. -/
def parseJsonNumber (l : List Char) : Option (ℚ × List Char) :=
  let signed : Bool × List Char :=
    match l with
    | '-' :: t => (true, t)
    | t => (false, t)
  let intPart := signed.2.takeWhile isDigitC
  let r1 := signed.2.dropWhile isDigitC
  if intPart = [] then none
  else if 1 < intPart.length && intPart.head? = some '0' then none
  else
    let fracStep : Option (ℚ × List Char) :=
      match r1 with
      | '.' :: t =>
        let fracPart := t.takeWhile isDigitC
        if fracPart = [] then none
        else some ((natOfDigits fracPart : ℚ) / (10 : ℚ) ^ fracPart.length,
          t.dropWhile isDigitC)
      | _ => some (0, r1)
    match fracStep with
    | none => none
    | some (frac, r2) =>
      let expStep : Option (ℚ × List Char) :=
        match r2 with
        | e :: t =>
          if e == 'e' || e == 'E' then
            let esigned : Bool × List Char :=
              match t with
              | '-' :: t' => (true, t')
              | '+' :: t' => (false, t')
              | t' => (false, t')
            let expPart := esigned.2.takeWhile isDigitC
            if expPart = [] then none
            else
              let p : ℚ := (10 : ℚ) ^ natOfDigits expPart
              some (if esigned.1 then 1 / p else p, esigned.2.dropWhile isDigitC)
          else some (1, r2)
        | [] => some (1, r2)
      match expStep with
      | none => none
      | some (scale, r3) =>
        let mag := ((natOfDigits intPart : ℚ) + frac) * scale
        some (if signed.1 then -mag else mag, r3)

mutual

/-- Parse one JSON value at the head of the input. -/
def parseJsonVal : ℕ → List Char → Option (Json × List Char)
  | 0, _ => none
  | f + 1, l =>
    let l1 := l.dropWhile jsWS
    match l1 with
    | [] => none
    | c :: cs =>
      if c == Char.ofNat 123 then parseJsonObj f cs true []
      else if c == '[' then parseJsonArr f cs true []
      else if c == '"' then
        (parseJsonString f cs).map fun p => (Json.str ⟨p.1⟩, p.2)
      else if ['t', 'r', 'u', 'e'].isPrefixOf l1 then some (Json.bool true, l1.drop 4)
      else if ['f', 'a', 'l', 's', 'e'].isPrefixOf l1 then some (Json.bool false, l1.drop 5)
      else if ['n', 'u', 'l', 'l'].isPrefixOf l1 then some (Json.null, l1.drop 4)
      else (parseJsonNumber l1).map fun p => (Json.num p.1, p.2)

/-- Parse the members of a JSON object (the opening brace already
consumed); `first` is true before the first member. -/
def parseJsonObj : ℕ → List Char → Bool → List (String × Json) → Option (Json × List Char)
  | 0, _, _, _ => none
  | f + 1, l, first, acc =>
    let l1 := l.dropWhile jsWS
    match l1 with
    | [] => none
    | c :: cs =>
      if first && c == Char.ofNat 125 then some (Json.obj acc, cs)
      else if c == '"' then
        match parseJsonString f cs with
        | none => none
        | some (key, r1) =>
          match r1.dropWhile jsWS with
          | ':' :: r2 =>
            match parseJsonVal f r2 with
            | none => none
            | some (v, r3) =>
              let acc' := mapSet acc ⟨key⟩ v
              match r3.dropWhile jsWS with
              | c2 :: r4 =>
                if c2 == Char.ofNat 125 then some (Json.obj acc', r4)
                else if c2 == ',' then parseJsonObj f r4 false acc'
                else none
              | [] => none
          | _ => none
      else none

/-- Parse the elements of a JSON array (the opening bracket already
consumed); `first` is true before the first element. -/
def parseJsonArr : ℕ → List Char → Bool → List Json → Option (Json × List Char)
  | 0, _, _, _ => none
  | f + 1, l, first, acc =>
    let l1 := l.dropWhile jsWS
    match l1 with
    | [] => none
    | c :: _ =>
      if first && c == ']' then some (Json.arr acc, l1.drop 1)
      else
        match parseJsonVal f l1 with
        | none => none
        | some (v, r1) =>
          match r1.dropWhile jsWS with
          | c2 :: r2 =>
            if c2 == ']' then some (Json.arr (acc ++ [v]), r2)
            else if c2 == ',' then parseJsonArr f r2 false (acc ++ [v])
            else none
          | [] => none

end

/-- Model of `JSON.parse`; `none` models a thrown `SyntaxError`. -/
def jsonParse (s : String) : Option Json :=
  match parseJsonVal (2 * s.length + 2) s.data with
  | some (v, rest) => if rest.dropWhile jsWS = [] then some v else none
  | none => none

/-! ## OSV data model (`app/types/osv.ts`) -/

structure OsvSeverityEntry where
  type : String
  score : String
deriving Repr, DecidableEq

structure OsvRangeEvent where
  introduced : Option String := none
  fixed : Option String := none
  last_affected : Option String := none
  limit : Option String := none
deriving Repr, DecidableEq

structure OsvAffectedRange where
  type : String
  events : List OsvRangeEvent
deriving Repr, DecidableEq

structure OsvPackageRef where
  ecosystem : String
  name : String
deriving Repr, DecidableEq

structure OsvDbSpecific where
  severity : Option String := none
  cvss_score : Option ℚ := none
deriving Repr, DecidableEq

structure OsvAffected where
  package : Option OsvPackageRef := none
  ranges : Option (List OsvAffectedRange) := none
  versions : Option (List String) := none
  database_specific : Option OsvDbSpecific := none
deriving Repr, DecidableEq

structure OsvReference where
  type : String
  url : String
deriving Repr, DecidableEq

structure OsvApiVulnerability where
  id : String
  summary : Option String := none
  details : Option String := none
  aliases : Option (List String) := none
  affected : Option (List OsvAffected) := none
  references : Option (List OsvReference) := none
  severity : Option (List OsvSeverityEntry) := none
  database_specific : Option OsvDbSpecific := none
deriving Repr, DecidableEq

/-- The five normalized severity levels. -/
inductive Severity where
  | CRITICAL
  | HIGH
  | MEDIUM
  | LOW
  | UNKNOWN
deriving Repr, DecidableEq

structure PackageInfo where
  name : String
  version : String
  ecosystem : String
  manifestFile : String
deriving Repr, DecidableEq

structure OsvVulnerability where
  id : String
  packageName : String
  version : String
  ecosystem : String
  severity : Severity
  summary : String
  details : String
  aliases : List String
  references : List OsvReference
  cvssScore : Option ℚ
  fixedVersions : List String
  manifestFile : String
deriving Repr, DecidableEq

structure ScanStats where
  total : ℕ
  critical : ℕ
  high : ℕ
  medium : ℕ
  low : ℕ
deriving Repr, DecidableEq

structure OsvScanResult where
  success : Bool
  vulnerabilities : List OsvVulnerability
  stats : ScanStats
  scannedFiles : ℕ
  scannedPackages : ℕ
  scanDuration : ℕ
  error : Option String := none
deriving Repr, DecidableEq

/-! ## OSV client (`app/lib/security/osv-client.ts`) -/

/-- Scan the `severity` entries for one whose `type` contains `"CVSS"`
and whose `score` parses to a number; the loop in `getCvssScore`
continues past entries whose score parses to `NaN`. -/
def cvssFromEntries : List OsvSeverityEntry → Option ℚ
  | [] => none
  | e :: rest =>
    if jsIncludes e.type "CVSS" then
      match jsParseFloat e.score with
      | some q => some q
      | none => cvssFromEntries rest
    else cvssFromEntries rest

/-- The `database_specific?.cvss_score` branch of `getCvssScore`: the
source guards the field with JS truthiness, so a stored score of `0` is
skipped (number `0` is falsy). -/
def cvssFromDb (v : OsvApiVulnerability) : Option ℚ :=
  match v.database_specific with
  | some ds =>
    match ds.cvss_score with
    | some q => if q = 0 then none else some q
    | none => none
  | none => none

/-- Model of `getCvssScore`: database-specific score first, then the
severity entries. -/
def getCvssScore (v : OsvApiVulnerability) : Option ℚ :=
  match cvssFromDb v with
  | some q => some q
  | none =>
    match v.severity with
    | some entries => cvssFromEntries entries
    | none => none

/-- Substring matching applied to an upper-cased severity string; this
if-chain appears verbatim in both the severity-entry branch and the
database-specific branch of `mapOsvSeverity`.  `none` means no keyword
matched, in which case the source falls through. -/
def sevFromText (s : String) : Option Severity :=
  if jsIncludes s "CRITICAL" then some Severity.CRITICAL
  else if jsIncludes s "HIGH" then some Severity.HIGH
  else if jsIncludes s "MEDIUM" || jsIncludes s "MODERATE" then some Severity.MEDIUM
  else if jsIncludes s "LOW" then some Severity.LOW
  else none

/-- The `vuln.severity` fallback branch of `mapOsvSeverity`: the guard
`vuln.severity && vuln.severity.length > 0` admits only a non-empty
entry list, whose first entry's `type` is matched. -/
def sevFromEntries (v : OsvApiVulnerability) : Option Severity :=
  match v.severity with
  | some (e :: _) => sevFromText (jsToUpper e.type)
  | _ => none

/-- The `database_specific?.severity` fallback branch of
`mapOsvSeverity` (an empty severity string is falsy and skipped). -/
def sevFromDb (v : OsvApiVulnerability) : Option Severity :=
  match v.database_specific with
  | some ds =>
    match ds.severity with
    | some s => if s = "" then none else sevFromText (jsToUpper s)
    | none => none
  | none => none

/-- Model of `mapOsvSeverity`: CVSS thresholds first, then the first
`severity` entry's `type` text, then the database-specific severity
text, and finally the `MEDIUM` default. -/
def mapOsvSeverity (v : OsvApiVulnerability) : Severity :=
  match getCvssScore v with
  | some s =>
    if 9 ≤ s then Severity.CRITICAL
    else if 7 ≤ s then Severity.HIGH
    else if 4 ≤ s then Severity.MEDIUM
    else Severity.LOW
  | none =>
    match sevFromEntries v with
    | some sev => sev
    | none =>
      match sevFromDb v with
      | some sev => sev
      | none => Severity.MEDIUM

/-- A raw record that carries no CVSS score, no severity entries and no
database-specific severity: `severity` absent or empty, and
`database_specific` absent or with neither a score nor a severity
string. -/
def hasNoSeverityData (v : OsvApiVulnerability) : Prop :=
  (v.severity = none ∨ v.severity = some []) ∧
  (match v.database_specific with
   | none => True
   | some ds => ds.cvss_score = none ∧ ds.severity = none)

/-- Model of `extractFixedVersions`: collect every truthy `fixed` event
of every range (the empty string is falsy in JS). -/
def extractFixedVersions (ranges : Option (List OsvAffectedRange)) : List String :=
  match ranges with
  | none => []
  | some rs =>
    rs.foldl (fun acc r =>
      r.events.foldl (fun acc e =>
        match e.fixed with
        | some fx => if fx = "" then acc else acc ++ [fx]
        | none => acc) acc) []

/-- First-occurrence deduplication, the model of `[...new Set(xs)]`. -/
def jsDedup : List String → List String
  | [] => []
  | x :: xs => x :: jsDedup (xs.filter fun y => y ≠ x)
termination_by l => l.length
decreasing_by
  simp only [List.length_cons]
  exact Nat.lt_succ_of_le (List.length_filter_le _ _)

/-- The fixed-version block of `convertOsvVulnerability`: union of the
fixed events of every affected entry whose package name matches, then
`[...new Set(...)]` deduplication. -/
def convertFixedVersions (apiVuln : OsvApiVulnerability) (pkg : PackageInfo) : List String :=
  jsDedup
    (match apiVuln.affected with
     | some l =>
       if 0 < l.length then
         l.foldl (fun acc aff =>
           match aff.package with
           | some p =>
             if p.name == pkg.name then acc ++ extractFixedVersions aff.ranges else acc
           | none => acc) []
       else []
     | none => [])

/-- First sentence of the trimmed `details` (split on period/newline),
truncated to 200 characters with an ellipsis when longer. -/
def firstSentenceTrunc (dOpt : Option String) : String :=
  match dOpt with
  | none => ""
  | some d =>
    let fs : List Char := (jsTrimL d.data).takeWhile fun c => !(c == '.' || c == '\n')
    if 200 < fs.length then (⟨fs.take 200⟩ : String) ++ "..." else (⟨fs⟩ : String)

/-- The summary value after the first two steps of
`convertOsvVulnerability`: the trimmed upstream summary (empty when the
field is absent), replaced — when it is empty and `details` is truthy —
by the first sentence of the trimmed details, truncated to 200
characters with an ellipsis. -/
def summaryStep1 (apiVuln : OsvApiVulnerability) : String :=
  if jsTrimStr (apiVuln.summary.getD "") = "" then
    match apiVuln.details with
    | some d =>
      if d = "" then jsTrimStr (apiVuln.summary.getD "")
      else
        let fs : List Char := (jsTrimL d.data).takeWhile fun c => !(c == '.' || c == '\n')
        if 200 < fs.length then (⟨fs.take 200⟩ : String) ++ "..." else (⟨fs⟩ : String)
    | none => jsTrimStr (apiVuln.summary.getD "")
  else jsTrimStr (apiVuln.summary.getD "")

/-- The summary block of `convertOsvVulnerability`: the synthesized
fallback kicks in exactly when the preceding steps produced an empty
string. -/
def convertSummary (apiVuln : OsvApiVulnerability) (pkg : PackageInfo) : String :=
  if summaryStep1 apiVuln = "" then "Security vulnerability in " ++ pkg.name
  else summaryStep1 apiVuln

/-- Model of `convertOsvVulnerability`. -/
def convertOsvVulnerability (apiVuln : OsvApiVulnerability) (pkg : PackageInfo) :
    OsvVulnerability :=
  { id := apiVuln.id
    packageName := pkg.name
    version := pkg.version
    ecosystem := pkg.ecosystem
    severity := mapOsvSeverity apiVuln
    summary := convertSummary apiVuln pkg
    details := apiVuln.details.getD ""
    aliases := apiVuln.aliases.getD []
    references := apiVuln.references.getD []
    cvssScore := getCvssScore apiVuln
    fixedVersions := convertFixedVersions apiVuln pkg
    manifestFile := pkg.manifestFile }

/-! ## Network model for `queryOsvBatch`

The batched endpoint is modelled by a deterministic transport: `status n`
and `body n` give the HTTP status and decoded body of the `n`-th call to
the batch endpoint, and `details id` gives the result of the follow-up
detail fetch for vulnerability `id` (`none` models a failed fetch, for
which the source falls back to the minimal record).  Real time is not
modelled; the `setTimeout` backoff is recorded as a `sleep` effect in an
effect trace alongside each batch-endpoint request. -/

structure OsvBatchResult where
  vulns : Option (List OsvApiVulnerability) := none
deriving Repr

structure OsvBatchResponse where
  results : List OsvBatchResult
deriving Repr

structure Transport where
  status : ℕ → ℕ
  body : ℕ → OsvBatchResponse
  details : String → Option OsvApiVulnerability

/-- JS `Response.ok`: status in the 200–299 range. -/
def respOk (s : ℕ) : Bool := 200 ≤ s && s < 300

inductive NetEffect where
  | request
  | sleep (ms : ℕ)
deriving Repr, DecidableEq

/-- The lookup key used by `queryOsvBatch` and `scanPackages`. -/
def pkgKey (pkg : PackageInfo) : String :=
  pkg.ecosystem ++ ":" ++ pkg.name ++ "@" ++ pkg.version

/-- Model of `MAX_BATCH_SIZE`-sized chunking of the package list. -/
def chunk1000 (l : List PackageInfo) : List (List PackageInfo) :=
  match l with
  | [] => []
  | a :: t => (a :: t).take 1000 :: chunk1000 ((a :: t).drop 1000)
termination_by l.length
decreasing_by
  simp [List.length_drop]
  omega

/-- Process one decoded batch body: for every query index with a
non-empty `vulns` list, fetch full details for each vulnerability
(falling back to the minimal record) and store them under the package
key. -/
def processBatch (T : Transport) (batch : List PackageInfo) (data : OsvBatchResponse)
    (acc : List (String × List OsvApiVulnerability)) :
    List (String × List OsvApiVulnerability) :=
  batch.enum.foldl (fun acc p =>
    match data.results.get? p.1 with
    | some res =>
      match res.vulns with
      | some vs =>
        if 0 < vs.length then
          mapSet acc (pkgKey p.2) (vs.map fun v => (T.details v.id).getD v)
        else acc
      | none => acc
    | none => acc) acc

/-- The sequential batch loop of `queryOsvBatch`: on a 429 status, sleep
2 seconds and retry exactly once, failing terminally when the retry is
not ok; on any other non-ok status, fail immediately.  `n` counts the
batch-endpoint calls made so far. -/
def runBatches (T : Transport) :
    List (List PackageInfo) → ℕ → List (String × List OsvApiVulnerability) →
    Except String (List (String × List OsvApiVulnerability)) × List NetEffect
  | [], _, acc => (Except.ok acc, [])
  | batch :: rest, n, acc =>
    if respOk (T.status n) then
      let r := runBatches T rest (n + 1) (processBatch T batch (T.body n) acc)
      (r.1, NetEffect.request :: r.2)
    else if T.status n = 429 then
      if respOk (T.status (n + 1)) then
        let r := runBatches T rest (n + 2) (processBatch T batch (T.body (n + 1)) acc)
        (r.1, NetEffect.request :: NetEffect.sleep 2000 :: NetEffect.request :: r.2)
      else
        (Except.error ("OSV API failed after retry: " ++ toString (T.status (n + 1))),
          [NetEffect.request, NetEffect.sleep 2000, NetEffect.request])
    else
      (Except.error ("OSV API request failed: " ++ toString (T.status n)),
        [NetEffect.request])

/-- Model of `queryOsvBatch`, returning the accumulated vulnerability
map (or the first terminal error) together with the effect trace of
batch-endpoint requests and backoff sleeps. -/
def queryOsvBatch (packages : List PackageInfo) (T : Transport) :
    Except String (List (String × List OsvApiVulnerability)) × List NetEffect :=
  runBatches T (chunk1000 packages) 0 []

/-- Model of `scanPackages`: empty input short-circuits to an empty
result; otherwise every package's map entry is converted in order. -/
def scanPackages (packages : List PackageInfo) (T : Transport) :
    Except String (List OsvVulnerability) :=
  if packages = [] then Except.ok []
  else
    match (queryOsvBatch packages T).1 with
    | Except.error e => Except.error e
    | Except.ok m =>
      Except.ok (packages.flatMap fun pkg =>
        ((mapGet m (pkgKey pkg)).getD []).map fun apiVuln =>
          convertOsvVulnerability apiVuln pkg)

/-! ## Manifest parsers (`app/lib/security/manifest-parsers.ts`) -/

/-- Model of `detectManifestType`: first end-anchored filename pattern
that matches the lower-cased path wins (the `/i` flag is subsumed by the
lower-casing done by the source). -/
def detectManifestType (filePath : String) : Option String :=
  let fileName := jsToLower filePath
  if jsEndsWith fileName "package.json" then some "npm"
  else if jsEndsWith fileName "requirements.txt" || jsEndsWith fileName "pipfile" ||
      jsEndsWith fileName "pyproject.toml" then some "PyPI"
  else if jsEndsWith fileName "go.mod" then some "Go"
  else if jsEndsWith fileName "cargo.toml" then some "crates.io"
  else if jsEndsWith fileName "pom.xml" then some "Maven"
  else if jsEndsWith fileName "packages.config" || jsEndsWith fileName ".csproj" then
    some "NuGet"
  else if jsEndsWith fileName "composer.json" then some "Packagist"
  else if jsEndsWith fileName "gemfile" then some "RubyGems"
  else none

/-- Property access `packageJson.dependencies` on a parsed JSON value. -/
def jsGetField (j : Json) (k : String) : Option Json :=
  match j with
  | Json.obj fs => mapGet fs k
  | _ => none

/-- The guard `value && typeof value === 'object'`: JS objects and
arrays pass, `null` is falsy, and primitives are not of object type. -/
def isTruthyObject (j : Option Json) : Bool :=
  match j with
  | some (Json.obj _) => true
  | some (Json.arr _) => true
  | _ => false

/-- Model of `Object.entries`: object fields in order, array elements
under their decimal index keys, nothing for other values. -/
def jsEntries (j : Option Json) : List (String × Json) :=
  match j with
  | some (Json.obj fs) => fs
  | some (Json.arr xs) => xs.enum.map fun p => (toString p.1, p.2)
  | _ => []

/-- One dependency entry of `package.json`: string-valued entries with a
non-empty cleaned version become a `PackageInfo`, everything else is
skipped. -/
def npmEntryPkg (manifestFile : String) (kv : String × Json) : Option PackageInfo :=
  match kv.2 with
  | Json.str ver =>
    let cleanedVersion := cleanVersion ver
    if cleanedVersion = "" then none
    else some ⟨kv.1, cleanedVersion, "npm", manifestFile⟩
  | _ => none

/-- One `packages.push(...)` step of the npm extraction loop. -/
def npmPush (manifestFile : String) (acc : List PackageInfo) (kv : String × Json) :
    List PackageInfo :=
  match npmEntryPkg manifestFile kv with
  | some p => acc ++ [p]
  | none => acc

/-- Model of `extractNpmPackages`: parse the JSON, walk `dependencies`
then `devDependencies`; malformed JSON is caught and yields `[]`. -/
def extractNpmPackages (content : String) (manifestFile : String) : List PackageInfo :=
  match jsonParse content with
  | none => []
  | some pj =>
    let deps := jsGetField pj "dependencies"
    let part1 :=
      if isTruthyObject deps then (jsEntries deps).foldl (npmPush manifestFile) []
      else []
    let devDeps := jsGetField pj "devDependencies"
    let part2 :=
      if isTruthyObject devDeps then (jsEntries devDeps).foldl (npmPush manifestFile) []
      else []
    part1 ++ part2

/-- The character class `[a-zA-Z0-9_-]` shared by the Python and Rust
name patterns. -/
def identChar (c : Char) : Bool :=
  c.isAlpha || isDigitC c || c == '_' || c == '-'

/-- The character class `[0-9.]` of the version patterns. -/
def versChar (c : Char) : Bool := isDigitC c || c == '.'

/-- The character class `[=><]` of the Python requirement pattern. -/
def opChar (c : Char) : Bool := c == '=' || c == '>' || c == '<'

/-- Model of the match `/^([a-zA-Z0-9_-]+)\s*([=><]+)\s*([0-9.]+)/`;
maximal munch is exact here because the classes at class boundaries are
disjoint. -/
def pyMatch (t : List Char) : Option (String × String) :=
  let name := t.takeWhile identChar
  if name = [] then none
  else
    let r2 := (t.dropWhile identChar).dropWhile jsWS
    let ops := r2.takeWhile opChar
    if ops = [] then none
    else
      let r4 := (r2.dropWhile opChar).dropWhile jsWS
      let ver := r4.takeWhile versChar
      if ver = [] then none else some (⟨name⟩, ⟨ver⟩)

/-- Model of `extractPythonPackages`: line-oriented scan of
`requirements.txt`, skipping blanks and `#` comments. -/
def extractPythonPackages (content : String) (manifestFile : String) : List PackageInfo :=
  (content.splitOn "\n").foldl (fun acc line =>
    let t := jsTrimStr line
    if t = "" then acc
    else if jsStartsWith t "#" then acc
    else
      match pyMatch t.data with
      | some (name, rawVer) =>
        let version := cleanVersion rawVer
        if version = "" then acc
        else acc ++ [⟨name, version, "PyPI", manifestFile⟩]
      | none => acc) []

/-- The character class `[a-zA-Z0-9._ slash dash]` of the go.mod module pattern. -/
def goModChar (c : Char) : Bool :=
  c.isAlpha || isDigitC c || c == '.' || c == '_' || c == '/' || c == '-'

/-- The module-and-version part `([a-zA-Z0-9._ slash dash]+)\s+v([0-9.]+)` of the
go.mod pattern. -/
def goCore (l : List Char) : Option (String × String) :=
  let m := l.takeWhile goModChar
  if m = [] then none
  else
    let r1 := l.dropWhile goModChar
    if r1.takeWhile jsWS = [] then none
    else
      match r1.dropWhile jsWS with
      | 'v' :: r3 =>
        let ver := r3.takeWhile versChar
        if ver = [] then none else some (⟨m⟩, ⟨ver⟩)
      | _ => none

/-- Model of `/^(?:require\s+)?([a-zA-Z0-9._ slash dash]+)\s+v([0-9.]+)/`: the
optional `require` prefix is attempted first, falling back to matching
the bare module, exactly as regex backtracking does. -/
def goMatch (t : List Char) : Option (String × String) :=
  let withReq : Option (String × String) :=
    if ['r', 'e', 'q', 'u', 'i', 'r', 'e'].isPrefixOf t then
      let r := t.drop 7
      if r.takeWhile jsWS = [] then none else goCore (r.dropWhile jsWS)
    else none
  match withReq with
  | some res => some res
  | none => goCore t

/-- Model of `extractGoPackages` with its `require (...)` block state;
note the source does not clean the Go version string. -/
def extractGoPackages (content : String) (manifestFile : String) : List PackageInfo :=
  ((content.splitOn "\n").foldl (fun (st : Bool × List PackageInfo) line =>
    let t := jsTrimStr line
    if t = "require (" then (true, st.2)
    else if t = ")" then (false, st.2)
    else if t = "" then st
    else if jsStartsWith t "//" then st
    else
      match goMatch t.data with
      | some (name, version) =>
        if st.1 || jsStartsWith t "require" then
          (st.1, st.2 ++ [⟨name, version, "Go", manifestFile⟩])
        else st
      | none => st) (false, [])).2

/-- Model of `/^([a-zA-Z0-9_-]+)\s*=\s*"([0-9.]+)"/` for Cargo.toml
`name = "x.y.z"` lines. -/
def rustMatch1 (t : List Char) : Option (String × String) :=
  let name := t.takeWhile identChar
  if name = [] then none
  else
    match (t.dropWhile identChar).dropWhile jsWS with
    | '=' :: r2 =>
      match r2.dropWhile jsWS with
      | '"' :: r3 =>
        let ver := r3.takeWhile versChar
        if ver = [] then none
        else
          match r3.dropWhile versChar with
          | '"' :: _ => some (⟨name⟩, ⟨ver⟩)
          | _ => none
      | _ => none
    | _ => none

/-- Match `version\s*=\s*"([0-9.]+)"` at the head of the input. -/
def matchVerAt (l : List Char) : Option (List Char) :=
  if ['v', 'e', 'r', 's', 'i', 'o', 'n'].isPrefixOf l then
    match (l.drop 7).dropWhile jsWS with
    | '=' :: r2 =>
      match r2.dropWhile jsWS with
      | '"' :: r3 =>
        let ver := r3.takeWhile versChar
        if ver = [] then none
        else
          match r3.dropWhile versChar with
          | '"' :: _ => some ver
          | _ => none
      | _ => none
    | _ => none
  else none

/-- The greedy `.*version\s*=\s*"([0-9.]+)"` tail: backtracking from the
longest gap means the rightmost matching occurrence wins. -/
def findLastVer : List Char → Option (List Char)
  | [] => none
  | c :: cs =>
    match findLastVer cs with
    | some v => some v
    | none => matchVerAt (c :: cs)

/-- Model of `/^([a-zA-Z0-9_-]+)\s*=\s*\{.*version\s*=\s*"([0-9.]+)"/`
for Cargo.toml inline-table dependency lines. -/
def rustMatch2 (t : List Char) : Option (String × String) :=
  let name := t.takeWhile identChar
  if name = [] then none
  else
    match (t.dropWhile identChar).dropWhile jsWS with
    | '=' :: r2 =>
      match r2.dropWhile jsWS with
      | c :: r3 =>
        if c == Char.ofNat 123 then (findLastVer r3).map fun v => (⟨name⟩, ⟨v⟩)
        else none
      | [] => none
    | _ => none

/-- Model of `extractRustPackages` with its `[dependencies]` /
`[dev-dependencies]` table state. -/
def extractRustPackages (content : String) (manifestFile : String) : List PackageInfo :=
  ((content.splitOn "\n").foldl (fun (st : Bool × List PackageInfo) line =>
    let t := jsTrimStr line
    if t = "[dependencies]" || t = "[dev-dependencies]" then (true, st.2)
    else if jsStartsWith t "[" && st.1 then (false, st.2)
    else if t = "" || jsStartsWith t "#" || !st.1 then st
    else
      let m :=
        match rustMatch1 t.data with
        | some r => some r
        | none => rustMatch2 t.data
      match m with
      | some (name, rawVer) =>
        let version := cleanVersion rawVer
        if version = "" then st
        else (st.1, st.2 ++ [⟨name, version, "crates.io", manifestFile⟩])
      | none => st) (false, [])).2

/-- Returns the input after the first occurrence of `pat`, or `none`
when `pat` does not occur. -/
def afterAt? (pat : List Char) : List Char → Option (List Char)
  | [] => if pat.isEmpty then some [] else none
  | c :: cs =>
    if pat.isPrefixOf (c :: cs) then some ((c :: cs).drop pat.length)
    else afterAt? pat cs

/-- Content between the first occurrence of `openT` and the first
`closeT` after it, together with the input after `closeT`. -/
def betweenSplit? (openT closeT l : List Char) : Option (List Char × List Char) :=
  match afterAt? openT l with
  | none => none
  | some r =>
    match beforeAt? closeT r, afterAt? closeT r with
    | some content, some rest => some (content, rest)
    | _, _ => none

/-- One step of the global `<dependency>...</dependency>` regex of
`extractMavenPackages`: the lazy gaps are first-occurrence searches (the
gaps may cross block boundaries, as `[\s\S]*?` does); the newline-free
restriction of the `(.*?)` captures is not modelled.  Recursion is
fuelled by the input length. -/
def mavenLoop (manifestFile : String) : ℕ → List Char → List PackageInfo
  | 0, _ => []
  | fuel + 1, l =>
    match afterAt? "<dependency>".data l with
    | none => []
    | some r1 =>
      match betweenSplit? "<groupId>".data "</groupId>".data r1 with
      | none => []
      | some (g, r2) =>
        match betweenSplit? "<artifactId>".data "</artifactId>".data r2 with
        | none => []
        | some (a, r3) =>
          match betweenSplit? "<version>".data "</version>".data r3 with
          | none => []
          | some (rawVer, r4) =>
            match afterAt? "</dependency>".data r4 with
            | none => []
            | some rest =>
              let groupId := jsTrimStr ⟨g⟩
              let artifactId := jsTrimStr ⟨a⟩
              let version := cleanVersion (jsTrimStr ⟨rawVer⟩)
              let entry : List PackageInfo :=
                if version = "" then []
                else [⟨groupId ++ ":" ++ artifactId, version, "Maven", manifestFile⟩]
              entry ++ mavenLoop manifestFile fuel rest

/-- Model of `extractMavenPackages`. -/
def extractMavenPackages (content : String) (manifestFile : String) : List PackageInfo :=
  mavenLoop manifestFile (content.length + 1) content.data

/-- Model of `extractPackagesFromManifest`: dispatch on the detected
ecosystem; unsupported ecosystems contribute no packages. -/
def extractPackagesFromManifest (filePath content : String) :
    List PackageInfo × Option String :=
  match detectManifestType filePath with
  | none => ([], none)
  | some eco =>
    let packages :=
      if eco = "npm" then extractNpmPackages content filePath
      else if eco = "PyPI" then extractPythonPackages content filePath
      else if eco = "Go" then extractGoPackages content filePath
      else if eco = "crates.io" then extractRustPackages content filePath
      else if eco = "Maven" then extractMavenPackages content filePath
      else []
    (packages, some eco)

/-- A `{path, content}` file record from the scan request body. -/
structure FileRec where
  path : String
  content : String
deriving Repr, DecidableEq

/-- Model of `extractAllPackages`. -/
def extractAllPackages (files : List FileRec) : List PackageInfo :=
  files.foldl (fun acc file =>
    acc ++ (extractPackagesFromManifest file.path file.content).1) []

/-! ## Scan route action (the OSV scan endpoint)

The request body is modelled by `Option (List FileRec)` (`none` when the
`files` field is absent or not an array); wall-clock scan duration is
not modelled and is reported as `0`. -/

/-- Model of `calculateStats`. -/
def calculateStats (vulnerabilities : List OsvVulnerability) : ScanStats :=
  { total := vulnerabilities.length
    critical := (vulnerabilities.filter fun v => v.severity == Severity.CRITICAL).length
    high := (vulnerabilities.filter fun v => v.severity == Severity.HIGH).length
    medium := (vulnerabilities.filter fun v => v.severity == Severity.MEDIUM).length
    low := (vulnerabilities.filter fun v => v.severity == Severity.LOW).length }

/-- Model of the scan `action` on a present `files` array: validate the
file list, filter manifest files, extract packages, query OSV, and
assemble the `ScanResult`; any error thrown by the query surfaces as
`success = false` with its message. -/
def scanActionFiles (files : List FileRec) (T : Transport) : OsvScanResult :=
  if files = [] then
      { success := false, vulnerabilities := [], stats := ⟨0, 0, 0, 0, 0⟩,
        scannedFiles := 0, scannedPackages := 0, scanDuration := 0,
        error := some "No files provided for scanning" }
    else if (files.filter fun file => (detectManifestType file.path).isSome) = [] then
      { success := false, vulnerabilities := [], stats := ⟨0, 0, 0, 0, 0⟩,
        scannedFiles := 0, scannedPackages := 0, scanDuration := 0,
        error := some ("No dependency manifest files found. Please add package.json, " ++
          "requirements.txt, go.mod, Cargo.toml, or other dependency files.") }
    else if extractAllPackages (files.filter fun file =>
        (detectManifestType file.path).isSome) = [] then
      { success := true, vulnerabilities := [], stats := ⟨0, 0, 0, 0, 0⟩,
        scannedFiles := (files.filter fun file => (detectManifestType file.path).isSome).length,
        scannedPackages := 0, scanDuration := 0 }
    else
      match scanPackages (extractAllPackages (files.filter fun file =>
          (detectManifestType file.path).isSome)) T with
      | Except.error e =>
        { success := false, vulnerabilities := [], stats := ⟨0, 0, 0, 0, 0⟩,
          scannedFiles := 0, scannedPackages := 0, scanDuration := 0,
          error := some e }
      | Except.ok vulnerabilities =>
        { success := true, vulnerabilities := vulnerabilities,
          stats := calculateStats vulnerabilities,
          scannedFiles :=
            (files.filter fun file => (detectManifestType file.path).isSome).length,
          scannedPackages := (extractAllPackages (files.filter fun file =>
            (detectManifestType file.path).isSome)).length,
          scanDuration := 0 }

/-- Model of the scan `action` entry point: a missing or non-array
`files` field yields the no-files error result. -/
def scanAction (reqFiles : Option (List FileRec)) (T : Transport) : OsvScanResult :=
  match reqFiles with
  | none =>
    { success := false, vulnerabilities := [], stats := ⟨0, 0, 0, 0, 0⟩,
      scannedFiles := 0, scannedPackages := 0, scanDuration := 0,
      error := some "No files provided for scanning" }
  | some files => scanActionFiles files T

/-! ## Concrete fixtures used to instantiate the theorems -/

/-- A transport whose every batch call succeeds with an empty body. -/
def T200 : Transport := ⟨fun _ => 200, fun _ => ⟨[]⟩, fun _ => none⟩

/-- A transport that rate-limits the first batch call and fails the
retry with a 500. -/
def T429 : Transport := ⟨fun n => if n = 0 then 429 else 500, fun _ => ⟨[]⟩, fun _ => none⟩

/-- A transport that answers every batch call with a 500. -/
def T500 : Transport := ⟨fun _ => 500, fun _ => ⟨[]⟩, fun _ => none⟩

/-- A raw vulnerability with no severity information at all. -/
def vulnNoData : OsvApiVulnerability := { id := "OSV-0" }

/-- A raw vulnerability with `database_specific.cvss_score = 9.5`. -/
def vuln95 : OsvApiVulnerability :=
  { id := "OSV-95", database_specific := some { cvss_score := some ((19 : ℚ) / 2) } }

/-- A raw vulnerability with `database_specific.cvss_score = 6.0`. -/
def vuln60 : OsvApiVulnerability :=
  { id := "OSV-60", database_specific := some { cvss_score := some (6 : ℚ) } }

/-- A file list containing no recognizable manifest. -/
def filesNoManifest : List FileRec := [⟨"a.txt", ""⟩]

/-- A file list whose only manifest parses to zero packages. -/
def filesEmptyManifest : List FileRec := [⟨"package.json", "not json"⟩]

/-- A file list whose manifest declares one npm dependency. -/
def filesWithDep : List FileRec :=
  [⟨"package.json", "\x7b\"dependencies\":\x7b\"a\":\"1.0.0\"\x7d\x7d"⟩]

/-- The package extracted from `filesWithDep`. -/
def pkgA : PackageInfo := ⟨"a", "1.0.0", "npm", "package.json"⟩

/-- A package.json body with two string-valued dependency entries, one
non-string entry, and one devDependency. -/
def c6content : String :=
  "\x7b\"dependencies\":\x7b\"a\":\"^1.2.3\",\"b\":true\x7d,\"devDependencies\":\x7b\"c\":\"~2.0.0\"\x7d\x7d"

/-- The object to which `c6content` parses. -/
def c6fs : List (String × Json) :=
  [("dependencies", Json.obj [("a", Json.str "^1.2.3"), ("b", Json.bool true)]),
   ("devDependencies", Json.obj [("c", Json.str "~2.0.0")])]

/-- Characterization of `cleanVersionL` outputs used for the
idempotence proof: no whitespace, no leading constraint character, no
adjacent `||` pair, and no `-`, `*` or `x`. -/
def GoodVer (l : List Char) : Prop :=
  (∀ c ∈ l, jsWS c = false) ∧
  (∀ c, l.head? = some c → constraintChar c = false) ∧
  hasPair '|' '|' l = false ∧
  '-' ∉ l ∧ '*' ∉ l ∧ 'x' ∉ l

/-! ## Helper lemmas on the string primitives -/

theorem takeWhile_eq_self (p : Char → Bool) :
    ∀ l : List Char, (∀ c ∈ l, p c = true) → l.takeWhile p = l := by
  intro l h
  induction l with
  | nil => rfl
  | cons a t ih =>
    rw [List.takeWhile_cons, if_pos (h a (List.mem_cons_self a t))]
    rw [ih fun c hc => h c (List.mem_cons_of_mem a hc)]

theorem dropWhile_eq_self (p : Char → Bool) (l : List Char)
    (h : ∀ c, l.head? = some c → p c = false) : l.dropWhile p = l := by
  cases l with
  | nil => rfl
  | cons a t => rw [List.dropWhile_cons, if_neg (by simp [h a rfl])]

theorem dropTrailWS_eq_self (l : List Char) (h : ∀ c ∈ l, jsWS c = false) :
    dropTrailWS l = l := by
  unfold dropTrailWS
  rw [dropWhile_eq_self _ _ ?_, List.reverse_reverse]
  intro c hc
  have hm : c ∈ l.reverse := List.mem_of_mem_head? (by simp [hc])
  exact h c (List.mem_reverse.mp hm)

theorem dropTrailWS_isPre (l : List Char) : dropTrailWS l <+: l := by
  have h : (l.reverse.dropWhile jsWS).reverse <+: l.reverse.reverse :=
    List.reverse_prefix.mpr (List.dropWhile_suffix jsWS)
  simpa [dropTrailWS] using h

theorem dropTrailWS_decomp (l : List Char) :
    ∃ w, l = dropTrailWS l ++ w ∧ ∀ c ∈ w, jsWS c = true := by
  refine ⟨(l.reverse.takeWhile jsWS).reverse, ?_, ?_⟩
  · conv_lhs => rw [← List.reverse_reverse l,
      ← List.takeWhile_append_dropWhile jsWS l.reverse]
    rw [List.reverse_append]
    rfl
  · intro c hc
    exact List.mem_takeWhile_imp (List.mem_reverse.mp hc)

theorem mem_of_mem_dropTrailWS {l : List Char} {c : Char} (h : c ∈ dropTrailWS l) :
    c ∈ l :=
  (dropTrailWS_isPre l).sublist.subset h

theorem head?_of_pre {l' l : List Char} {c : Char} (hp : l' <+: l)
    (h : l'.head? = some c) : l.head? = some c := by
  obtain ⟨t, rfl⟩ := hp
  cases l' with
  | nil => simp at h
  | cons a s => simpa using h

theorem beforeAt?_isPre (pat : List Char) :
    ∀ l b, beforeAt? pat l = some b → b <+: l := by
  intro l
  induction l with
  | nil =>
    intro b h
    unfold beforeAt? at h
    split at h
    · cases h; exact List.prefix_rfl
    · cases h
  | cons c cs ih =>
    intro b h
    unfold beforeAt? at h
    split at h
    · cases h; exact List.nil_prefix
    · cases hb : beforeAt? pat cs with
      | none => rw [hb] at h; cases h
      | some b' =>
        rw [hb] at h
        simp only [Option.map_some'] at h
        cases h
        obtain ⟨t, ht⟩ := ih b' hb
        exact ⟨t, by rw [List.cons_append, ht]⟩

theorem beforeAt?_none_single (d : Char) :
    ∀ l, beforeAt? [d] l = none → d ∉ l := by
  intro l
  induction l with
  | nil => intro _; simp
  | cons c cs ih =>
    intro h
    by_cases hp : ([d].isPrefixOf (c :: cs)) = true
    · unfold beforeAt? at h; rw [if_pos hp] at h; cases h
    · unfold beforeAt? at h; rw [if_neg hp] at h
      have hnone : beforeAt? [d] cs = none := by
        cases hb : beforeAt? [d] cs with
        | none => rfl
        | some r => rw [hb] at h; cases h
      have hdc : d ≠ c := by
        intro he
        subst he
        exact hp (by simp [List.isPrefixOf])
      intro hm
      cases List.mem_cons.mp hm with
      | inl h1 => exact hdc h1
      | inr h2 => exact ih hnone h2

theorem beforeAt?_single_of_not_mem (d : Char) :
    ∀ l, d ∉ l → beforeAt? [d] l = none := by
  intro l
  induction l with
  | nil => intro _; rfl
  | cons c cs ih =>
    intro h
    have hdc : d ≠ c := fun he => h (he ▸ List.mem_cons_self c cs)
    have hcs : d ∉ cs := fun hm => h (List.mem_cons_of_mem c hm)
    unfold beforeAt?
    rw [if_neg (by simp [List.isPrefixOf, hdc]), ih hcs]
    rfl

theorem beforeAt?_some_single (d : Char) :
    ∀ l r, beforeAt? [d] l = some r → d ∉ r := by
  intro l
  induction l with
  | nil =>
    intro r h
    unfold beforeAt? at h
    rw [if_neg (by simp)] at h
    cases h
  | cons c cs ih =>
    intro r h
    by_cases hp : ([d].isPrefixOf (c :: cs)) = true
    · unfold beforeAt? at h; rw [if_pos hp] at h; cases h; simp
    · unfold beforeAt? at h; rw [if_neg hp] at h
      cases hb : beforeAt? [d] cs with
      | none => rw [hb] at h; cases h
      | some r' =>
        rw [hb] at h
        simp only [Option.map_some'] at h
        cases h
        have hdc : d ≠ c := by
          intro he
          subst he
          exact hp (by simp [List.isPrefixOf])
        intro hm
        cases List.mem_cons.mp hm with
        | inl h1 => exact hdc h1
        | inr h2 => exact ih r' hb h2

theorem beforeAt?_none_pair (a b : Char) :
    ∀ l, beforeAt? [a, b] l = none → hasPair a b l = false := by
  intro l
  induction l with
  | nil => intro _; rfl
  | cons c cs ih =>
    intro h
    by_cases hp : ([a, b].isPrefixOf (c :: cs)) = true
    · unfold beforeAt? at h; rw [if_pos hp] at h; cases h
    · unfold beforeAt? at h; rw [if_neg hp] at h
      have hnone : beforeAt? [a, b] cs = none := by
        cases hb : beforeAt? [a, b] cs with
        | none => rfl
        | some r => rw [hb] at h; cases h
      have ihcs := ih hnone
      cases cs with
      | nil => rfl
      | cons d t =>
        unfold hasPair
        rw [ihcs]
        cases h1 : c == a <;> cases h2 : d == b <;>
          simp_all [List.isPrefixOf, beq_iff_eq]

theorem beforeAt?_pair_of_not (a b : Char) :
    ∀ l, hasPair a b l = false → beforeAt? [a, b] l = none := by
  intro l
  induction l with
  | nil => intro _; rfl
  | cons c cs ih =>
    intro h
    cases cs with
    | nil => simp [beforeAt?, List.isPrefixOf]
    | cons d t =>
      unfold hasPair at h
      have h1 : (c == a && d == b) = false := by
        cases hx : (c == a && d == b) with
        | false => rfl
        | true => rw [hx] at h; simp at h
      have h2 : hasPair a b (d :: t) = false := by
        cases hx : hasPair a b (d :: t) with
        | false => rfl
        | true => rw [hx] at h; simp at h
      unfold beforeAt?
      rw [if_neg ?_, ih h2]
      · rfl
      · cases ha : a == c <;> cases hb : b == d <;>
          simp_all [List.isPrefixOf, beq_iff_eq]

theorem beforeAt?_some_pair (a b : Char) :
    ∀ l r, beforeAt? [a, b] l = some r → hasPair a b r = false := by
  intro l
  induction l with
  | nil =>
    intro r h
    unfold beforeAt? at h
    rw [if_neg (by simp)] at h
    cases h
  | cons c cs ih =>
    intro r h
    by_cases hp : ([a, b].isPrefixOf (c :: cs)) = true
    · unfold beforeAt? at h; rw [if_pos hp] at h; cases h; rfl
    · unfold beforeAt? at h; rw [if_neg hp] at h
      cases hb : beforeAt? [a, b] cs with
      | none => rw [hb] at h; cases h
      | some r' =>
        rw [hb] at h
        simp only [Option.map_some'] at h
        cases h
        have ihr := ih r' hb
        cases hr : r' with
        | nil => rfl
        | cons d t =>
          subst hr
          obtain ⟨s, hs⟩ := beforeAt?_isPre [a, b] cs (d :: t) hb
          unfold hasPair
          rw [ihr]
          rw [← hs] at hp
          cases h1 : c == a <;> cases h2 : d == b <;>
            simp_all [List.isPrefixOf, beq_iff_eq]

theorem hasPair_of_pre (a b : Char) :
    ∀ l' t, hasPair a b (l' ++ t) = false → hasPair a b l' = false := by
  intro l'
  induction l' with
  | nil => intro t _; rfl
  | cons c cs ih =>
    intro t h
    cases cs with
    | nil => rfl
    | cons d u =>
      rw [List.cons_append, List.cons_append] at h
      unfold hasPair at h ⊢
      have h1 : (c == a && d == b) = false := by
        cases hx : (c == a && d == b) with
        | false => rfl
        | true => rw [hx] at h; simp at h
      have h2 : hasPair a b (d :: (u ++ t)) = false := by
        cases hx : hasPair a b (d :: (u ++ t)) with
        | false => rfl
        | true => rw [hx] at h; simp at h
      rw [h1, ih t h2]
      rfl

theorem hasPair_isPrefix (a b : Char) {l' l : List Char} (hp : l' <+: l)
    (h : hasPair a b l = false) : hasPair a b l' = false := by
  obtain ⟨t, rfl⟩ := hp
  exact hasPair_of_pre a b l' t h

theorem hasPair_append_single (a b c : Char) :
    ∀ l, hasPair a b l = false → (c == b) = false →
      hasPair a b (l ++ [c]) = false := by
  intro l
  induction l with
  | nil => intro _ _; rfl
  | cons x xs ih =>
    intro h hc
    cases xs with
    | nil =>
      show (x == a && c == b || hasPair a b [c]) = false
      rw [hc]
      simp [hasPair]
    | cons y ys =>
      unfold hasPair at h
      have h1 : (x == a && y == b) = false := by
        cases hx : (x == a && y == b) with
        | false => rfl
        | true => rw [hx] at h; simp at h
      have h2 : hasPair a b (y :: ys) = false := by
        cases hx : hasPair a b (y :: ys) with
        | false => rfl
        | true => rw [hx] at h; simp at h
      have h3 := ih h2 hc
      rw [List.cons_append] at h3
      show (x == a && y == b || hasPair a b (y :: (ys ++ [c]))) = false
      rw [h1, h3]
      rfl

theorem char_contains_iff (l : List Char) (c : Char) : l.contains c = true ↔ c ∈ l := by
  show l.elem c = true ↔ _
  rw [List.elem_eq_mem]
  simp

theorem head?_dropWhile (p : Char → Bool) :
    ∀ (l : List Char) (c : Char), (l.dropWhile p).head? = some c → p c = false := by
  intro l
  induction l with
  | nil => intro c h; simp [List.dropWhile] at h
  | cons a t ih =>
    intro c h
    rw [List.dropWhile_cons] at h
    by_cases hp : p a = true
    · rw [if_pos hp] at h
      exact ih c h
    · rw [if_neg hp] at h
      simp only [List.head?_cons, Option.some.injEq] at h
      subst h
      cases hb : p a with
      | true => exact absurd hb hp
      | false => rfl

theorem beforeAtDollar?_isPre (pat : List Char) :
    ∀ l b, beforeAtDollar? pat l = some b → b <+: l := by
  intro l
  induction l with
  | nil =>
    intro b h
    unfold beforeAtDollar? at h
    split at h
    · cases h; exact List.prefix_rfl
    · cases h
  | cons c cs ih =>
    intro b h
    unfold beforeAtDollar? at h
    split at h
    · cases h; exact List.nil_prefix
    · cases hb : beforeAtDollar? pat cs with
      | none => rw [hb] at h; cases h
      | some b' =>
        rw [hb] at h
        simp only [Option.map_some'] at h
        cases h
        obtain ⟨t, ht⟩ := ih b' hb
        exact ⟨t, by rw [List.cons_append, ht]⟩

theorem noLineTerm_eq_true (l : List Char) (hn : '\n' ∉ l) (hr : '\r' ∉ l) :
    noLineTerm l = true := by
  unfold noLineTerm
  cases h1 : l.contains '\n' with
  | true => exact absurd ((char_contains_iff l '\n').mp h1) hn
  | false =>
    cases h2 : l.contains '\r' with
    | true => exact absurd ((char_contains_iff l '\r').mp h2) hr
    | false => rfl

theorem beforeAtDollar?_eq (pat : List Char) :
    ∀ l, '\n' ∉ l → '\r' ∉ l → beforeAtDollar? pat l = beforeAt? pat l := by
  intro l
  induction l with
  | nil => intro _ _; rfl
  | cons c cs ih =>
    intro hn hr
    have hdrop : noLineTerm ((c :: cs).drop pat.length) = true := by
      refine noLineTerm_eq_true _ (fun hm => hn ?_) (fun hm => hr ?_) <;>
        exact (List.drop_sublist _ _).subset hm
    have hncs : '\n' ∉ cs := fun hm => hn (List.mem_cons_of_mem c hm)
    have hrcs : '\r' ∉ cs := fun hm => hr (List.mem_cons_of_mem c hm)
    unfold beforeAtDollar? beforeAt?
    rw [hdrop, Bool.and_true, ih hncs hrcs]

theorem cutAt_isPre (pat l : List Char) : cutAt pat l <+: l := by
  unfold cutAt
  cases hb : beforeAtDollar? pat l with
  | none => exact List.prefix_rfl
  | some b => exact (dropTrailWS_isPre b).trans (beforeAtDollar?_isPre pat l b hb)

theorem hasPair_cutAt_or (l : List Char) (hn : '\n' ∉ l) (hr : '\r' ∉ l) :
    hasPair '|' '|' (cutAt orPat l) = false := by
  unfold cutAt
  rw [beforeAtDollar?_eq orPat l hn hr]
  cases hb : beforeAt? orPat l with
  | none =>
    rw [show orPat = ['|', '|'] from rfl] at hb
    exact beforeAt?_none_pair '|' '|' l hb
  | some b =>
    rw [show orPat = ['|', '|'] from rfl] at hb
    exact hasPair_isPrefix _ _ (dropTrailWS_isPre b) (beforeAt?_some_pair '|' '|' l b hb)

theorem not_mem_cutAt_dash (l : List Char) (hn : '\n' ∉ l) (hr : '\r' ∉ l) :
    '-' ∉ cutAt dashPat l := by
  unfold cutAt
  rw [beforeAtDollar?_eq dashPat l hn hr]
  cases hb : beforeAt? dashPat l with
  | none =>
    rw [show dashPat = ['-'] from rfl] at hb
    exact beforeAt?_none_single '-' l hb
  | some b =>
    rw [show dashPat = ['-'] from rfl] at hb
    intro hm
    exact beforeAt?_some_single '-' l b hb (mem_of_mem_dropTrailWS hm)

theorem goodVer_wildcardStep (t : List Char)
    (hws : ∀ c ∈ t, jsWS c = false)
    (hhead : ∀ c, t.head? = some c → constraintChar c = false)
    (hpair : hasPair '|' '|' t = false)
    (hdash : '-' ∉ t) :
    GoodVer (wildcardStep t) := by
  unfold wildcardStep
  by_cases hc : (t.contains '*' || t.contains 'x') = true
  · rw [if_pos hc]
    have hlast :
        ((t.takeWhile fun c => !(c == '.' || c == '*' || c == 'x')) ++ ['0']).getLast? =
          some '0' := List.getLast?_concat _
    rw [if_neg (by rw [hlast]; simp)]
    set pre := t.takeWhile fun c => !(c == '.' || c == '*' || c == 'x') with hpredef
    have hpp : pre <+: t := List.takeWhile_prefix _
    have hps : pre ⊆ t := hpp.sublist.subset
    refine ⟨?_, ?_, ?_, ?_, ?_, ?_⟩
    · intro c hcm
      rcases List.mem_append.mp hcm with hcm | hcm
      · exact hws c (hps hcm)
      · simp only [List.mem_singleton] at hcm
        subst hcm
        decide
    · intro c hch
      cases hp : pre with
      | nil =>
        rw [hp, List.nil_append] at hch
        simp only [List.head?_cons, Option.some.injEq] at hch
        subst hch
        decide
      | cons p ps =>
        rw [hp, List.cons_append] at hch
        simp only [List.head?_cons, Option.some.injEq] at hch
        subst hch
        exact hhead p (@head?_of_pre (p :: ps) t p (hp ▸ hpp) rfl)
    · apply hasPair_append_single
      · exact hasPair_isPrefix _ _ hpp hpair
      · decide
    · intro hm
      rcases List.mem_append.mp hm with hm | hm
      · exact hdash (hps hm)
      · simp only [List.mem_singleton] at hm
        exact absurd hm (by decide)
    · intro hm
      rcases List.mem_append.mp hm with hm | hm
      · exact absurd (List.mem_takeWhile_imp hm) (by decide)
      · simp only [List.mem_singleton] at hm
        exact absurd hm (by decide)
    · intro hm
      rcases List.mem_append.mp hm with hm | hm
      · exact absurd (List.mem_takeWhile_imp hm) (by decide)
      · simp only [List.mem_singleton] at hm
        exact absurd hm (by decide)
  · rw [if_neg hc]
    have hsplit : t.contains '*' = false ∧ t.contains 'x' = false := by
      revert hc
      cases t.contains '*' <;> cases t.contains 'x' <;> simp
    refine ⟨hws, hhead, hpair, hdash, ?_, ?_⟩
    · intro hm
      rw [(char_contains_iff t '*').mpr hm] at hsplit
      exact absurd hsplit.1 (by decide)
    · intro hm
      rw [(char_contains_iff t 'x').mpr hm] at hsplit
      exact absurd hsplit.2 (by decide)

theorem goodVer_cleanVersionL (l : List Char) (hn : '\n' ∉ l) (hr : '\r' ∉ l) :
    GoodVer (cleanVersionL l) := by
  unfold cleanVersionL
  by_cases h0 : l = []
  · rw [if_pos h0]
    exact ⟨by simp, by simp, rfl, by simp, by simp, by simp⟩
  · rw [if_neg h0]
    show GoodVer (wildcardStep
      ((cutAt dashPat (cutAt orPat ((jsTrimL l).dropWhile constraintChar))).takeWhile
        fun c => !(jsWS c)))
    set t1 := (jsTrimL l).dropWhile constraintChar with ht1
    set t2 := cutAt orPat t1 with ht2
    set t3 := cutAt dashPat t2 with ht3
    set t4 := t3.takeWhile (fun c => !(jsWS c)) with ht4
    have p43 : t4 <+: t3 := List.takeWhile_prefix _
    have p32 : t3 <+: t2 := cutAt_isPre _ _
    have p21 : t2 <+: t1 := cutAt_isPre _ _
    have st1 : ∀ c, c ∈ t1 → c ∈ l := by
      intro c hc
      have h1 : c ∈ dropTrailWS (l.dropWhile jsWS) :=
        (List.dropWhile_suffix constraintChar).sublist.subset hc
      have h2 : c ∈ l.dropWhile jsWS := mem_of_mem_dropTrailWS h1
      exact (List.dropWhile_suffix jsWS).sublist.subset h2
    have hn1 : '\n' ∉ t1 := fun hm => hn (st1 _ hm)
    have hr1 : '\r' ∉ t1 := fun hm => hr (st1 _ hm)
    have hn2 : '\n' ∉ t2 := fun hm => hn1 (p21.sublist.subset hm)
    have hr2 : '\r' ∉ t2 := fun hm => hr1 (p21.sublist.subset hm)
    apply goodVer_wildcardStep
    · intro c hcm
      have := List.mem_takeWhile_imp hcm
      simpa using this
    · intro c hch
      have h1 : t1.head? = some c := head?_of_pre (p43.trans (p32.trans p21)) hch
      exact head?_dropWhile constraintChar (jsTrimL l) c h1
    · exact hasPair_isPrefix _ _ (p43.trans p32) (hasPair_cutAt_or t1 hn1 hr1)
    · intro hm
      exact not_mem_cutAt_dash t2 hn2 hr2 (p43.sublist.subset hm)

theorem cleanVersionL_of_goodVer (l : List Char) (h : GoodVer l) :
    cleanVersionL l = l := by
  obtain ⟨hws, hhead, hpair, hdash, hstar, hx⟩ := h
  have hn : '\n' ∉ l := fun hm => absurd (hws _ hm) (by decide)
  have hr : '\r' ∉ l := fun hm => absurd (hws _ hm) (by decide)
  unfold cleanVersionL
  by_cases h0 : l = []
  · rw [if_pos h0, h0]
  · rw [if_neg h0]
    show (wildcardStep
      ((cutAt dashPat (cutAt orPat ((jsTrimL l).dropWhile constraintChar))).takeWhile
        fun c => !(jsWS c))) = l
    have e0 : jsTrimL l = l := by
      unfold jsTrimL
      rw [dropWhile_eq_self jsWS l
        (fun c hc => hws c (List.mem_of_mem_head? (by simp [hc])))]
      exact dropTrailWS_eq_self l hws
    rw [e0]
    have e1 : l.dropWhile constraintChar = l := dropWhile_eq_self _ _ hhead
    rw [e1]
    have e2 : cutAt orPat l = l := by
      unfold cutAt
      rw [beforeAtDollar?_eq orPat l hn hr,
        show orPat = ['|', '|'] from rfl, beforeAt?_pair_of_not '|' '|' l hpair]
    rw [e2]
    have e3 : cutAt dashPat l = l := by
      unfold cutAt
      rw [beforeAtDollar?_eq dashPat l hn hr,
        show dashPat = ['-'] from rfl, beforeAt?_single_of_not_mem '-' l hdash]
    rw [e3]
    have e4 : (l.takeWhile fun c => !(jsWS c)) = l :=
      takeWhile_eq_self _ l (fun c hc => by rw [hws c hc]; rfl)
    rw [e4]
    unfold wildcardStep
    rw [if_neg ?_]
    cases hs : l.contains '*' with
    | true => exact absurd ((char_contains_iff l '*').mp hs) hstar
    | false =>
      cases hxc : l.contains 'x' with
      | true => exact absurd ((char_contains_iff l 'x').mp hxc) hx
      | false => simp [hs, hxc]

theorem cleanVersionL_idem (l : List Char) (hn : '\n' ∉ l) (hr : '\r' ∉ l) :
    cleanVersionL (cleanVersionL l) = cleanVersionL l :=
  cleanVersionL_of_goodVer _ (goodVer_cleanVersionL l hn hr)

theorem takeWhile_append_ws (t w : List Char) (hw : ∀ c ∈ w, jsWS c = true) :
    ((t ++ w).takeWhile fun c => !(jsWS c)) = t.takeWhile fun c => !(jsWS c) := by
  induction t with
  | nil =>
    simp only [List.nil_append, List.takeWhile_nil]
    cases w with
    | nil => rfl
    | cons c cs =>
      rw [List.takeWhile_cons, if_neg]
      rw [hw c (List.mem_cons_self c cs)]
      simp
  | cons a t ih =>
    rw [List.cons_append, List.takeWhile_cons, List.takeWhile_cons]
    by_cases hp : (!(jsWS a)) = true
    · rw [if_pos hp, if_pos hp, ih]
    · rw [if_neg hp, if_neg hp]

theorem cleanVersion_eq_claimAmended (v : String) :
    cleanVersion v = cleanVersionClaimC8Amended v := by
  unfold cleanVersion cleanVersionClaimC8Amended cleanVersionL
  by_cases h0 : v.data = []
  · rw [if_pos h0, if_pos h0]
  · rw [if_neg h0, if_neg h0]
    show (⟨wildcardStep
        ((cutAt dashPat (cutAt orPat ((jsTrimL v.data).dropWhile constraintChar))).takeWhile
          fun c => !(jsWS c))⟩ : String) =
      ⟨wildcardStep
        ((match beforeAtDollar? dashPat
            (cutAt orPat ((jsTrimL v.data).dropWhile constraintChar)) with
          | some b => b
          | none => cutAt orPat ((jsTrimL v.data).dropWhile constraintChar)).takeWhile
          fun c => !(jsWS c))⟩
    set t2 := cutAt orPat ((jsTrimL v.data).dropWhile constraintChar) with ht2
    apply congrArg
    apply congrArg
    cases hb : beforeAtDollar? dashPat t2 with
    | none =>
      show ((cutAt dashPat t2).takeWhile fun c => !(jsWS c)) =
        (t2.takeWhile fun c => !(jsWS c))
      unfold cutAt
      rw [hb]
    | some b =>
      show ((cutAt dashPat t2).takeWhile fun c => !(jsWS c)) =
        (b.takeWhile fun c => !(jsWS c))
      obtain ⟨w, hdecomp, hwws⟩ := dropTrailWS_decomp b
      have e3 : cutAt dashPat t2 = dropTrailWS b := by
        unfold cutAt
        rw [hb]
      rw [e3]
      conv_rhs => rw [hdecomp]
      exact (takeWhile_append_ws (dropTrailWS b) w hwws).symm

/-! ## Severity classifier lemmas -/

theorem sevFromText_ne_unknown (s : String) (sev : Severity)
    (h : sevFromText s = some sev) : sev ≠ Severity.UNKNOWN := by
  unfold sevFromText at h
  split at h
  · cases h; decide
  · split at h
    · cases h; decide
    · split at h
      · cases h; decide
      · split at h
        · cases h; decide
        · cases h

theorem sevFromEntries_ne_unknown (v : OsvApiVulnerability) (sev : Severity)
    (h : sevFromEntries v = some sev) : sev ≠ Severity.UNKNOWN := by
  unfold sevFromEntries at h
  split at h
  · exact sevFromText_ne_unknown _ _ h
  · cases h

theorem sevFromDb_ne_unknown (v : OsvApiVulnerability) (sev : Severity)
    (h : sevFromDb v = some sev) : sev ≠ Severity.UNKNOWN := by
  unfold sevFromDb at h
  split at h
  · split at h
    · split at h
      · cases h
      · exact sevFromText_ne_unknown _ _ h
    · cases h
  · cases h

theorem mapOsvSeverity_ne_unknown (v : OsvApiVulnerability) :
    mapOsvSeverity v ≠ Severity.UNKNOWN := by
  unfold mapOsvSeverity
  cases hc : getCvssScore v with
  | some s =>
    show (if 9 ≤ s then Severity.CRITICAL
          else if 7 ≤ s then Severity.HIGH
          else if 4 ≤ s then Severity.MEDIUM
          else Severity.LOW) ≠ Severity.UNKNOWN
    by_cases h9 : (9 : ℚ) ≤ s
    · rw [if_pos h9]; decide
    · rw [if_neg h9]
      by_cases h7 : (7 : ℚ) ≤ s
      · rw [if_pos h7]; decide
      · rw [if_neg h7]
        by_cases h4 : (4 : ℚ) ≤ s
        · rw [if_pos h4]; decide
        · rw [if_neg h4]; decide
  | none =>
    cases he : sevFromEntries v with
    | some sev =>
      show sev ≠ Severity.UNKNOWN
      exact sevFromEntries_ne_unknown v sev he
    | none =>
      cases hd : sevFromDb v with
      | some sev =>
        show sev ≠ Severity.UNKNOWN
        exact sevFromDb_ne_unknown v sev hd
      | none =>
        show Severity.MEDIUM ≠ Severity.UNKNOWN
        decide

theorem mapOsvSeverity_default (v : OsvApiVulnerability)
    (h : hasNoSeverityData v) : mapOsvSeverity v = Severity.MEDIUM := by
  obtain ⟨hsev, hdb⟩ := h
  have hdbScore : cvssFromDb v = none := by
    unfold cvssFromDb
    cases hds : v.database_specific with
    | none => rfl
    | some ds =>
      rw [hds] at hdb
      show (match ds.cvss_score with
            | some q => if q = 0 then none else some q
            | none => none) = none
      rw [hdb.1]
  have hcvss : getCvssScore v = none := by
    unfold getCvssScore
    rw [hdbScore]
    cases hsev with
    | inl h1 => rw [h1]
    | inr h1 =>
      rw [h1]
      show cvssFromEntries [] = none
      rfl
  have hentries : sevFromEntries v = none := by
    unfold sevFromEntries
    cases hsev with
    | inl h1 => rw [h1]
    | inr h1 => rw [h1]
  have hdbsev : sevFromDb v = none := by
    unfold sevFromDb
    cases hds : v.database_specific with
    | none => rfl
    | some ds =>
      rw [hds] at hdb
      show (match ds.severity with
            | some s => if s = "" then none else sevFromText (jsToUpper s)
            | none => none) = none
      rw [hdb.2]
  unfold mapOsvSeverity
  rw [hcvss, hentries, hdbsev]

theorem mapOsvSeverity_cvss (v : OsvApiVulnerability) (s : ℚ)
    (h : getCvssScore v = some s) :
    mapOsvSeverity v =
      (if 9 ≤ s then Severity.CRITICAL
       else if 7 ≤ s then Severity.HIGH
       else if 4 ≤ s then Severity.MEDIUM
       else Severity.LOW) := by
  unfold mapOsvSeverity
  rw [h]

/-! ## Conversion invariants -/

theorem mem_jsDedup {x : String} : ∀ {l : List String}, x ∈ jsDedup l → x ∈ l := by
  intro l
  induction l using jsDedup.induct with
  | case1 => intro h; simp only [jsDedup] at h; cases h
  | case2 y ys ih =>
    intro h
    simp only [jsDedup] at h
    cases List.mem_cons.mp h with
    | inl h1 => exact h1 ▸ List.mem_cons_self y ys
    | inr h1 => exact List.mem_cons_of_mem y (List.mem_of_mem_filter (ih h1))

theorem jsDedup_nodup : ∀ l : List String, (jsDedup l).Nodup := by
  intro l
  induction l using jsDedup.induct with
  | case1 => simp only [jsDedup]; exact List.nodup_nil
  | case2 y ys ih =>
    simp only [jsDedup]
    refine List.nodup_cons.mpr ⟨?_, ih⟩
    intro hmem
    have := List.of_mem_filter (mem_jsDedup hmem)
    simp at this

theorem convert_fixedVersions_nodup (apiVuln : OsvApiVulnerability) (pkg : PackageInfo) :
    (convertOsvVulnerability apiVuln pkg).fixedVersions.Nodup :=
  jsDedup_nodup _

theorem string_append_ne_empty (a b : String) (h : a.data ≠ []) : a ++ b ≠ "" := by
  intro he
  have := congrArg String.data he
  rw [String.data_append] at this
  cases hd : a.data with
  | nil => exact h hd
  | cons c cs => rw [hd] at this; cases this

theorem summaryStep1_eq (apiVuln : OsvApiVulnerability) :
    summaryStep1 apiVuln =
      (if jsTrimStr (apiVuln.summary.getD "") = "" then firstSentenceTrunc apiVuln.details
       else jsTrimStr (apiVuln.summary.getD "")) := by
  unfold summaryStep1 firstSentenceTrunc
  by_cases h0 : jsTrimStr (apiVuln.summary.getD "") = ""
  · rw [if_pos h0, if_pos h0]
    cases hd : apiVuln.details with
    | none => exact h0
    | some d =>
      show (if d = "" then jsTrimStr (apiVuln.summary.getD "")
            else
              if 200 < ((jsTrimL d.data).takeWhile fun c => !(c == '.' || c == '\n')).length
              then
                (⟨((jsTrimL d.data).takeWhile fun c => !(c == '.' || c == '\n')).take 200⟩ :
                  String) ++ "..."
              else
                (⟨(jsTrimL d.data).takeWhile fun c => !(c == '.' || c == '\n')⟩ : String)) =
        (if 200 < ((jsTrimL d.data).takeWhile fun c => !(c == '.' || c == '\n')).length then
          (⟨((jsTrimL d.data).takeWhile fun c => !(c == '.' || c == '\n')).take 200⟩ :
            String) ++ "..."
        else (⟨(jsTrimL d.data).takeWhile fun c => !(c == '.' || c == '\n')⟩ : String))
      by_cases hde : d = ""
      · subst hde
        rw [if_pos rfl, h0]
        rfl
      · rw [if_neg hde]
  · rw [if_neg h0, if_neg h0]

theorem convertSummary_spec (apiVuln : OsvApiVulnerability) (pkg : PackageInfo) :
    convertSummary apiVuln pkg =
      (if jsTrimStr (apiVuln.summary.getD "") ≠ "" then jsTrimStr (apiVuln.summary.getD "")
       else if firstSentenceTrunc apiVuln.details ≠ "" then firstSentenceTrunc apiVuln.details
       else "Security vulnerability in " ++ pkg.name) := by
  unfold convertSummary
  rw [summaryStep1_eq]
  split_ifs <;> simp_all

theorem convertSummary_ne_empty (apiVuln : OsvApiVulnerability) (pkg : PackageInfo) :
    convertSummary apiVuln pkg ≠ "" := by
  rw [convertSummary_spec]
  by_cases h0 : jsTrimStr (apiVuln.summary.getD "") = ""
  · rw [if_neg (by simpa using h0)]
    by_cases h1 : firstSentenceTrunc apiVuln.details = ""
    · rw [if_neg (by simpa using h1)]
      exact string_append_ne_empty _ _ (by decide)
    · rw [if_pos (by simpa using h1)]
      exact h1
  · rw [if_pos (by simpa using h0)]
    exact h0

/-! ## npm extraction lemmas -/

theorem foldl_npmPush (manifestFile : String) :
    ∀ (l : List (String × Json)) (init : List PackageInfo),
      l.foldl (npmPush manifestFile) init =
        init ++ l.filterMap (npmEntryPkg manifestFile) := by
  intro l
  induction l with
  | nil => intro init; simp
  | cons a t ih =>
    intro init
    rw [List.foldl_cons, List.filterMap_cons]
    cases hg : npmEntryPkg manifestFile a with
    | none =>
      rw [show npmPush manifestFile init a = init by unfold npmPush; rw [hg], ih]
    | some y =>
      rw [show npmPush manifestFile init a = init ++ [y] by unfold npmPush; rw [hg], ih,
        List.append_assoc]
      rfl

theorem jsEntries_of_not_truthy (j : Option Json) (h : isTruthyObject j = false) :
    jsEntries j = [] := by
  unfold isTruthyObject at h
  unfold jsEntries
  cases j with
  | none => rfl
  | some x =>
    cases x with
    | null => rfl
    | bool b => rfl
    | num q => rfl
    | str s => rfl
    | arr xs => cases h
    | obj fs => cases h

theorem extractNpmPackages_obj (content manifestFile : String) (fs : List (String × Json))
    (h : jsonParse content = some (Json.obj fs)) :
    extractNpmPackages content manifestFile =
      (jsEntries (jsGetField (Json.obj fs) "dependencies")).filterMap
          (npmEntryPkg manifestFile) ++
        (jsEntries (jsGetField (Json.obj fs) "devDependencies")).filterMap
          (npmEntryPkg manifestFile) := by
  unfold extractNpmPackages
  rw [h]
  have hpart : ∀ j : Option Json,
      (if isTruthyObject j then (jsEntries j).foldl (npmPush manifestFile) []
      else []) = (jsEntries j).filterMap (npmEntryPkg manifestFile) := by
    intro j
    by_cases ht : isTruthyObject j = true
    · rw [if_pos ht, foldl_npmPush manifestFile (jsEntries j) [], List.nil_append]
    · rw [if_neg ht, jsEntries_of_not_truthy j (by revert ht; cases isTruthyObject j <;> simp)]
      rfl
  show ((if isTruthyObject (jsGetField (Json.obj fs) "dependencies") then
      (jsEntries (jsGetField (Json.obj fs) "dependencies")).foldl (npmPush manifestFile) []
    else []) ++
    (if isTruthyObject (jsGetField (Json.obj fs) "devDependencies") then
      (jsEntries (jsGetField (Json.obj fs) "devDependencies")).foldl (npmPush manifestFile) []
    else [])) = _
  rw [hpart, hpart]

theorem extractNpmPackages_malformed (content manifestFile : String)
    (h : jsonParse content = none) :
    extractNpmPackages content manifestFile = [] := by
  unfold extractNpmPackages
  rw [h]

/-! ## Scan statistics lemmas -/

theorem count_four_eq_length :
    ∀ l : List OsvVulnerability, (∀ v ∈ l, v.severity ≠ Severity.UNKNOWN) →
      (l.filter fun v => v.severity == Severity.CRITICAL).length +
      (l.filter fun v => v.severity == Severity.HIGH).length +
      (l.filter fun v => v.severity == Severity.MEDIUM).length +
      (l.filter fun v => v.severity == Severity.LOW).length = l.length := by
  intro l
  induction l with
  | nil => intro _; rfl
  | cons a t ih =>
    intro h
    have ha := h a (List.mem_cons_self a t)
    have iht := ih fun v hv => h v (List.mem_cons_of_mem a hv)
    cases hsev : a.severity
    case UNKNOWN => exact absurd hsev ha
    all_goals
      simp only [List.filter_cons, hsev]
      simp
      omega

theorem calculateStats_inv (l : List OsvVulnerability)
    (h : ∀ v ∈ l, v.severity ≠ Severity.UNKNOWN) :
    (calculateStats l).total = l.length ∧
      (calculateStats l).total =
        (calculateStats l).critical + (calculateStats l).high +
          (calculateStats l).medium + (calculateStats l).low := by
  refine ⟨rfl, ?_⟩
  show l.length = _
  rw [← count_four_eq_length l h]
  rfl

theorem scanPackages_mem (packages : List PackageInfo) (T : Transport)
    (vulns : List OsvVulnerability) (h : scanPackages packages T = Except.ok vulns) :
    ∀ v ∈ vulns, ∃ av pkg, v = convertOsvVulnerability av pkg := by
  unfold scanPackages at h
  by_cases hp : packages = []
  · rw [if_pos hp] at h
    cases h
    intro v hv
    cases hv
  · rw [if_neg hp] at h
    cases hq : (queryOsvBatch packages T).1 with
    | error e => rw [hq] at h; cases h
    | ok m =>
      rw [hq] at h
      cases h
      intro v hv
      rw [List.mem_flatMap] at hv
      obtain ⟨pkg, _, hv⟩ := hv
      rw [List.mem_map] at hv
      obtain ⟨av, _, rfl⟩ := hv
      exact ⟨av, pkg, rfl⟩

theorem scanPackages_sev (packages : List PackageInfo) (T : Transport)
    (vulns : List OsvVulnerability) (h : scanPackages packages T = Except.ok vulns) :
    ∀ v ∈ vulns, v.severity ≠ Severity.UNKNOWN := by
  intro v hv
  obtain ⟨av, pkg, rfl⟩ := scanPackages_mem packages T vulns h v hv
  show mapOsvSeverity av ≠ Severity.UNKNOWN
  exact mapOsvSeverity_ne_unknown av

theorem scanActionFiles_stats (files : List FileRec) (T : Transport) :
    (scanActionFiles files T).stats.total =
        (scanActionFiles files T).vulnerabilities.length ∧
      (scanActionFiles files T).stats.total =
        (scanActionFiles files T).stats.critical + (scanActionFiles files T).stats.high +
          (scanActionFiles files T).stats.medium + (scanActionFiles files T).stats.low := by
  unfold scanActionFiles
  by_cases hf : files = []
  · rw [if_pos hf]
    exact ⟨rfl, rfl⟩
  · rw [if_neg hf]
    by_cases hm : (files.filter fun file => (detectManifestType file.path).isSome) = []
    · rw [if_pos hm]
      exact ⟨rfl, rfl⟩
    · rw [if_neg hm]
      by_cases hp : extractAllPackages
          (files.filter fun file => (detectManifestType file.path).isSome) = []
      · rw [if_pos hp]
        exact ⟨rfl, rfl⟩
      · rw [if_neg hp]
        cases hs : scanPackages (extractAllPackages
            (files.filter fun file => (detectManifestType file.path).isSome)) T with
        | error e => exact ⟨rfl, rfl⟩
        | ok vulns =>
          show (calculateStats vulns).total = vulns.length ∧
            (calculateStats vulns).total =
              (calculateStats vulns).critical + (calculateStats vulns).high +
                (calculateStats vulns).medium + (calculateStats vulns).low
          exact calculateStats_inv vulns (scanPackages_sev _ T vulns hs)

theorem scanAction_stats (reqFiles : Option (List FileRec)) (T : Transport) :
    (scanAction reqFiles T).stats.total = (scanAction reqFiles T).vulnerabilities.length ∧
      (scanAction reqFiles T).stats.total =
        (scanAction reqFiles T).stats.critical + (scanAction reqFiles T).stats.high +
          (scanAction reqFiles T).stats.medium + (scanAction reqFiles T).stats.low := by
  cases reqFiles with
  | none => exact ⟨rfl, rfl⟩
  | some files =>
    show (scanActionFiles files T).stats.total =
        (scanActionFiles files T).vulnerabilities.length ∧
      (scanActionFiles files T).stats.total =
        (scanActionFiles files T).stats.critical + (scanActionFiles files T).stats.high +
          (scanActionFiles files T).stats.medium + (scanActionFiles files T).stats.low
    exact scanActionFiles_stats files T

/-! ## Batch retry lemmas -/

theorem runBatches_429 (T : Transport) (batches : List (List PackageInfo)) (n : ℕ)
    (acc : List (String × List OsvApiVulnerability)) (hb : batches ≠ [])
    (h429 : T.status n = 429) (hfail : respOk (T.status (n + 1)) = false) :
    runBatches T batches n acc =
      (Except.error ("OSV API failed after retry: " ++ toString (T.status (n + 1))),
        [NetEffect.request, NetEffect.sleep 2000, NetEffect.request]) := by
  cases batches with
  | nil => exact absurd rfl hb
  | cons batch rest =>
    unfold runBatches
    rw [if_neg (by rw [h429]; decide), if_pos h429, if_neg (by rw [hfail]; simp)]

theorem runBatches_hard (T : Transport) (batches : List (List PackageInfo)) (n : ℕ)
    (acc : List (String × List OsvApiVulnerability)) (hb : batches ≠ [])
    (hfail : respOk (T.status n) = false) (hnot : T.status n ≠ 429) :
    runBatches T batches n acc =
      (Except.error ("OSV API request failed: " ++ toString (T.status n)),
        [NetEffect.request]) := by
  cases batches with
  | nil => exact absurd rfl hb
  | cons batch rest =>
    unfold runBatches
    rw [if_neg (by rw [hfail]; simp), if_neg hnot]

theorem chunk1000_ne_nil (packages : List PackageInfo) (h : packages ≠ []) :
    chunk1000 packages ≠ [] := by
  cases packages with
  | nil => exact absurd rfl h
  | cons a t =>
    rw [chunk1000]
    simp

theorem queryOsvBatch_429 (packages : List PackageInfo) (T : Transport)
    (hp : packages ≠ []) (h429 : T.status 0 = 429)
    (hfail : respOk (T.status 1) = false) :
    queryOsvBatch packages T =
      (Except.error ("OSV API failed after retry: " ++ toString (T.status 1)),
        [NetEffect.request, NetEffect.sleep 2000, NetEffect.request]) := by
  unfold queryOsvBatch
  exact runBatches_429 T (chunk1000 packages) 0 [] (chunk1000_ne_nil packages hp) h429 hfail

theorem queryOsvBatch_hard (packages : List PackageInfo) (T : Transport)
    (hp : packages ≠ []) (hfail : respOk (T.status 0) = false)
    (hnot : T.status 0 ≠ 429) :
    queryOsvBatch packages T =
      (Except.error ("OSV API request failed: " ++ toString (T.status 0)),
        [NetEffect.request]) := by
  unfold queryOsvBatch
  exact runBatches_hard T (chunk1000 packages) 0 [] (chunk1000_ne_nil packages hp) hfail hnot

theorem scanPackages_error (packages : List PackageInfo) (T : Transport) (e : String)
    (hp : packages ≠ []) (hq : (queryOsvBatch packages T).1 = Except.error e) :
    scanPackages packages T = Except.error e := by
  unfold scanPackages
  rw [if_neg hp, hq]

theorem scanAction_queryFail (files : List FileRec) (T : Transport)
    (hp : extractAllPackages
      (files.filter fun file => (detectManifestType file.path).isSome) ≠ [])
    (he : ∃ e, (queryOsvBatch (extractAllPackages
      (files.filter fun file => (detectManifestType file.path).isSome)) T).1 =
        Except.error e) :
    (scanAction (some files) T).success = false ∧
      (scanAction (some files) T).error ≠ none := by
  obtain ⟨e, he⟩ := he
  have hm : (files.filter fun file => (detectManifestType file.path).isSome) ≠ [] := by
    intro hnil
    exact hp (by rw [hnil]; rfl)
  have hf : files ≠ [] := by
    intro hnil
    exact hm (by rw [hnil]; rfl)
  have hserr := scanPackages_error _ T e hp he
  show (scanActionFiles files T).success = false ∧ (scanActionFiles files T).error ≠ none
  unfold scanActionFiles
  rw [if_neg hf, if_neg hm, if_neg hp, hserr]
  exact ⟨rfl, by simp⟩

/-! ## Claim theorems -/

/-- C1: `mapOsvSeverity` returns exactly one of the five enumerated
severities for every raw record (it is a total function into
`Severity`), it never returns `UNKNOWN`, and a record that carries no
CVSS score, no severity entries and no database-specific severity
classifies as `MEDIUM`. -/
theorem claim_C1 (v : OsvApiVulnerability) :
    mapOsvSeverity v ≠ Severity.UNKNOWN ∧
      (hasNoSeverityData v → mapOsvSeverity v = Severity.MEDIUM) :=
  ⟨mapOsvSeverity_ne_unknown v, fun h => mapOsvSeverity_default v h⟩

/-- C1 witness: the record with no severity data classifies `MEDIUM`,
not `UNKNOWN`. -/
theorem claim_C1_witness :
    mapOsvSeverity vulnNoData = Severity.MEDIUM ∧
      mapOsvSeverity vulnNoData ≠ Severity.UNKNOWN :=
  ⟨(claim_C1 vulnNoData).2 ⟨Or.inl rfl, trivial⟩, (claim_C1 vulnNoData).1⟩

/-- C2: with a non-empty file list but no recognized manifest file, the
scan action returns `success = false` with the descriptive error and an
empty vulnerability list; with at least one manifest file but zero
extracted packages it returns `success = true` with an empty list and
all-zero stats. -/
theorem claim_C2 (files : List FileRec) (T : Transport) :
    (files ≠ [] →
      (files.filter fun f => (detectManifestType f.path).isSome) = [] →
        (scanAction (some files) T).success = false ∧
          (scanAction (some files) T).error =
            some ("No dependency manifest files found. Please add package.json, " ++
              "requirements.txt, go.mod, Cargo.toml, or other dependency files.") ∧
          (scanAction (some files) T).vulnerabilities = []) ∧
    ((files.filter fun f => (detectManifestType f.path).isSome) ≠ [] →
      extractAllPackages (files.filter fun f => (detectManifestType f.path).isSome) = [] →
        (scanAction (some files) T).success = true ∧
          (scanAction (some files) T).vulnerabilities = [] ∧
          (scanAction (some files) T).stats = ⟨0, 0, 0, 0, 0⟩) := by
  constructor
  · intro hf hm
    show (scanActionFiles files T).success = false ∧
      (scanActionFiles files T).error = _ ∧ (scanActionFiles files T).vulnerabilities = []
    unfold scanActionFiles
    rw [if_neg hf, if_pos hm]
    exact ⟨rfl, rfl, rfl⟩
  · intro hm hp
    have hf : files ≠ [] := fun hnil => hm (by rw [hnil]; rfl)
    show (scanActionFiles files T).success = true ∧
      (scanActionFiles files T).vulnerabilities = [] ∧
        (scanActionFiles files T).stats = ⟨0, 0, 0, 0, 0⟩
    unfold scanActionFiles
    rw [if_neg hf, if_neg hm, if_pos hp]
    exact ⟨rfl, rfl, rfl⟩

/-- C2 witness: a text file only yields the usage error; an unparsable
package.json yields a successful empty scan. -/
theorem claim_C2_witness :
    ((scanAction (some filesNoManifest) T200).success = false ∧
      (scanAction (some filesNoManifest) T200).error =
        some ("No dependency manifest files found. Please add package.json, " ++
          "requirements.txt, go.mod, Cargo.toml, or other dependency files.") ∧
      (scanAction (some filesNoManifest) T200).vulnerabilities = []) ∧
    ((scanAction (some filesEmptyManifest) T200).success = true ∧
      (scanAction (some filesEmptyManifest) T200).vulnerabilities = [] ∧
      (scanAction (some filesEmptyManifest) T200).stats = ⟨0, 0, 0, 0, 0⟩) :=
  ⟨(claim_C2 filesNoManifest T200).1 (by decide) (by decide),
   (claim_C2 filesEmptyManifest T200).2 (by decide) (by decide)⟩

/-- C3: on a 429 for the first batch the client sleeps 2000 ms and
retries exactly once (trace `[request, sleep 2000, request]`), a failed
retry aborts the whole query with an error, any other non-success
status raises immediately with no retry, and a query error surfaces as
`success = false` from the scan action. -/
theorem claim_C3 :
    (∀ (packages : List PackageInfo) (T : Transport), packages ≠ [] →
      T.status 0 = 429 → respOk (T.status 1) = false →
        (queryOsvBatch packages T).1 =
            Except.error ("OSV API failed after retry: " ++ toString (T.status 1)) ∧
          (queryOsvBatch packages T).2 =
            [NetEffect.request, NetEffect.sleep 2000, NetEffect.request]) ∧
    (∀ (packages : List PackageInfo) (T : Transport), packages ≠ [] →
      respOk (T.status 0) = false → T.status 0 ≠ 429 →
        (queryOsvBatch packages T).1 =
            Except.error ("OSV API request failed: " ++ toString (T.status 0)) ∧
          (queryOsvBatch packages T).2 = [NetEffect.request]) ∧
    (∀ (files : List FileRec) (T : Transport),
      extractAllPackages (files.filter fun f => (detectManifestType f.path).isSome) ≠ [] →
      T.status 0 = 429 → respOk (T.status 1) = false →
        (scanAction (some files) T).success = false) := by
  refine ⟨?_, ?_, ?_⟩
  · intro packages T hp h429 hfail
    rw [queryOsvBatch_429 packages T hp h429 hfail]
    exact ⟨rfl, rfl⟩
  · intro packages T hp hfail hnot
    rw [queryOsvBatch_hard packages T hp hfail hnot]
    exact ⟨rfl, rfl⟩
  · intro files T hp h429 hfail
    have hq := queryOsvBatch_429
      (extractAllPackages (files.filter fun f => (detectManifestType f.path).isSome))
      T hp h429 hfail
    exact (scanAction_queryFail files T hp
      ⟨_, by rw [hq]⟩).1

/-- C3 witness: a transport answering 429 then 500 aborts the query
after exactly one backed-off retry; an immediate 500 aborts without
retry; the scan over a one-dependency manifest fails. -/
theorem claim_C3_witness :
    ((queryOsvBatch [pkgA] T429).1 =
        Except.error ("OSV API failed after retry: " ++ toString (T429.status 1)) ∧
      (queryOsvBatch [pkgA] T429).2 =
        [NetEffect.request, NetEffect.sleep 2000, NetEffect.request]) ∧
    ((queryOsvBatch [pkgA] T500).1 =
        Except.error ("OSV API request failed: " ++ toString (T500.status 0)) ∧
      (queryOsvBatch [pkgA] T500).2 = [NetEffect.request]) ∧
    (scanAction (some filesWithDep) T429).success = false :=
  ⟨claim_C3.1 [pkgA] T429 (by decide) (by decide) (by decide),
   claim_C3.2.1 [pkgA] T500 (by decide) (by decide) (by decide),
   claim_C3.2.2 filesWithDep T429 (by decide) (by decide) (by decide)⟩

/-- C4: whenever `getCvssScore` yields a score, `mapOsvSeverity`
classifies by the thresholds 9.0 / 7.0 / 4.0. -/
theorem claim_C4 (v : OsvApiVulnerability) (s : ℚ) (h : getCvssScore v = some s) :
    ((9 : ℚ) ≤ s → mapOsvSeverity v = Severity.CRITICAL) ∧
      ((7 : ℚ) ≤ s → s < 9 → mapOsvSeverity v = Severity.HIGH) ∧
      ((4 : ℚ) ≤ s → s < 7 → mapOsvSeverity v = Severity.MEDIUM) ∧
      (s < 4 → mapOsvSeverity v = Severity.LOW) := by
  rw [mapOsvSeverity_cvss v s h]
  refine ⟨?_, ?_, ?_, ?_⟩
  · intro h9
    rw [if_pos h9]
  · intro h7 h9
    rw [if_neg (not_le.mpr h9), if_pos h7]
  · intro h4 h7
    rw [if_neg (not_le.mpr (h7.trans (by norm_num))), if_neg (not_le.mpr h7), if_pos h4]
  · intro h4
    rw [if_neg (not_le.mpr (h4.trans (by norm_num))),
      if_neg (not_le.mpr (h4.trans (by norm_num))), if_neg (not_le.mpr h4)]

/-- C4 witness (Scenario C): `database_specific.cvss_score = 9.5` gives
`CRITICAL` and `6.0` gives `MEDIUM`. -/
theorem claim_C4_witness :
    mapOsvSeverity vuln95 = Severity.CRITICAL ∧
      mapOsvSeverity vuln60 = Severity.MEDIUM :=
  ⟨(claim_C4 vuln95 ((19 : ℚ) / 2)
      (by norm_num [getCvssScore, cvssFromDb, vuln95])).1 (by norm_num),
   (claim_C4 vuln60 (6 : ℚ)
      (by norm_num [getCvssScore, cvssFromDb, vuln60])).2.2.1 (by norm_num) (by norm_num)⟩

/-- C5: every normalized vulnerability has duplicate-free
`fixedVersions` and a non-empty `summary` chosen in the order trimmed
upstream summary, first sentence of the details (truncated to 200
characters with an ellipsis), synthesized fallback. -/
theorem claim_C5 (apiVuln : OsvApiVulnerability) (pkg : PackageInfo) :
    (convertOsvVulnerability apiVuln pkg).fixedVersions.Nodup ∧
      (convertOsvVulnerability apiVuln pkg).summary ≠ "" ∧
      (convertOsvVulnerability apiVuln pkg).summary =
        (if jsTrimStr (apiVuln.summary.getD "") ≠ "" then jsTrimStr (apiVuln.summary.getD "")
         else if firstSentenceTrunc apiVuln.details ≠ "" then firstSentenceTrunc apiVuln.details
         else "Security vulnerability in " ++ pkg.name) :=
  ⟨convert_fixedVersions_nodup apiVuln pkg, convertSummary_ne_empty apiVuln pkg,
    convertSummary_spec apiVuln pkg⟩

/-- C6: for content parsing to a JSON object, npm extraction yields
exactly one `PackageInfo` (ecosystem `npm`, cleaned version) per
string-valued entry of `dependencies` and `devDependencies` whose
cleaned version is non-empty, in order; malformed JSON yields `[]`
without throwing. -/
theorem claim_C6 (content manifestFile : String) (fs : List (String × Json)) :
    (jsonParse content = some (Json.obj fs) →
      extractNpmPackages content manifestFile =
        ((jsEntries (jsGetField (Json.obj fs) "dependencies")) ++
          (jsEntries (jsGetField (Json.obj fs) "devDependencies"))).filterMap
            (npmEntryPkg manifestFile)) ∧
    (jsonParse content = none → extractNpmPackages content manifestFile = []) := by
  constructor
  · intro h
    rw [extractNpmPackages_obj content manifestFile fs h, List.filterMap_append]
  · exact extractNpmPackages_malformed content manifestFile

/-- C6 witness: two valid string entries (one dependency, one
devDependency) yield exactly two records in order; malformed JSON
yields none. -/
theorem claim_C6_witness :
    extractNpmPackages c6content "package.json" =
        [⟨"a", "1.2.3", "npm", "package.json"⟩, ⟨"c", "2.0.0", "npm", "package.json"⟩] ∧
      extractNpmPackages "not json" "package.json" = [] := by
  constructor
  · have h := (claim_C6 c6content "package.json" c6fs).1 (by rfl)
    rw [h]
    decide
  · exact (claim_C6 "not json" "package.json" []).2 (by rfl)

/-- C7: the wildcard branch of `cleanVersion` cuts at the first
character of the class `.`, `*`, `x` — the regex erroneously includes
the dot — so `"1.2.x"` and `"1.x"` both clean to `"10"`, not to the
`"1.2.0"` / `"1.0"` the claim (and the code's own base-version comment
and trailing-dot fix-up) intend. -/
theorem claim_C7_eval :
    cleanVersion "1.2.x" = "10" ∧ cleanVersion "1.x" = "10" ∧
      cleanVersion "1.2.x" ≠ "1.2.0" ∧ cleanVersion "1.x" ≠ "1.0" := by
  decide

/-- C8 counterexample: the code cuts at any dash, not only at a spaced
range dash, so the claimed pipeline disagrees with the code on the
prerelease version `1.0.0-beta`. -/
theorem claim_C8_counterexample :
    cleanVersion "1.0.0-beta" = "1.0.0" ∧
      cleanVersionClaimC8 "1.0.0-beta" = "1.0.0-beta" ∧
      cleanVersion "1.0.0-beta" ≠ cleanVersionClaimC8 "1.0.0-beta" := by
  decide

/-- C8 (amended): `cleanVersion` applies trim, constraint-strip, then
cut at the first `||` (together with any whitespace run immediately
before it) whose remainder holds no line terminator, then cut at the
first dash (together with any whitespace run immediately before it)
whose remainder holds no line terminator — any dash, not only a spaced
` - ` range dash; the `$`-anchored regexes match nothing when a line
terminator follows — then take the first whitespace-delimited token;
empty input yields the empty string, and the claim's examples hold. -/
theorem claim_C8 :
    (∀ v : String, cleanVersion v = cleanVersionClaimC8Amended v) ∧
      cleanVersion "^1.2.3" = "1.2.3" ∧
      cleanVersion "~2.0.0 || 3.0.0" = "2.0.0" ∧
      cleanVersion "" = "" :=
  ⟨cleanVersion_eq_claimAmended, by decide, by decide, by decide⟩

/-- C9 counterexample: `cleanVersion` is not idempotent — at
`"1.0-a\nb"` the dash cut is blocked because a line terminator follows
the dash (the `$`-anchored regex cannot match across it), so the first
pass yields `"1.0-a"`, and the second pass, now seeing a clean tail,
cuts again to `"1.0"`. -/
theorem claim_C9_counterexample :
    cleanVersion (cleanVersion "1.0-a\nb") ≠ cleanVersion "1.0-a\nb" ∧
      cleanVersion "1.0-a\nb" = "1.0-a" ∧
      cleanVersion "1.0-a" = "1.0" := by
  decide

/-- C9 (amended): `cleanVersion` is idempotent on every input free of
line terminators (`\n`, `\r`): each such output is whitespace-free,
has no leading constraint character, no `||` pair and no dash, star or
`x`, so a second pass leaves it unchanged. -/
theorem claim_C9 (v : String) (hn : '\n' ∉ v.data) (hr : '\r' ∉ v.data) :
    cleanVersion (cleanVersion v) = cleanVersion v :=
  congrArg String.mk (cleanVersionL_idem v.data hn hr)

/-- C9 witness: idempotence at the concrete line-terminator-free input
`"~2.0.0 || 3.0.0"`. -/
theorem claim_C9_witness :
    '\n' ∉ "~2.0.0 || 3.0.0".data ∧ '\r' ∉ "~2.0.0 || 3.0.0".data ∧
      cleanVersion (cleanVersion "~2.0.0 || 3.0.0") = cleanVersion "~2.0.0 || 3.0.0" :=
  ⟨by decide, by decide, claim_C9 "~2.0.0 || 3.0.0" (by decide) (by decide)⟩

/-- C10: every `ScanResult` produced by the scan action has
`stats.total` equal to the length of the vulnerability list and to the
sum of the four severity buckets — no vulnerability falls outside them
because the classifier never produces `UNKNOWN`. -/
theorem claim_C10 (reqFiles : Option (List FileRec)) (T : Transport) :
    (scanAction reqFiles T).stats.total = (scanAction reqFiles T).vulnerabilities.length ∧
      (scanAction reqFiles T).stats.total =
        (scanAction reqFiles T).stats.critical + (scanAction reqFiles T).stats.high +
          (scanAction reqFiles T).stats.medium + (scanAction reqFiles T).stats.low :=
  scanAction_stats reqFiles T

end Osv
